import Mathlib

/-!
Verification of the geodist polyline engine (densification and geodesic
Hausdorff distance) against its specification.

The development shallowly embeds geodist-rs/src/polyline.rs.  Numeric values
are modelled as exact rationals.  The transcendental ingredients that the
engine obtains from the geodesic kernel (great-circle distance, sine, and
spherical linear interpolation) and the enumeration order produced by the
external spatial index are parameters of the embedding, constrained in each
theorem exactly as far as the specification constrains the collaborators:

* distance: the spec's GeodesicKernel is a total nonnegative function on
  validated points (the engine only ever calls it after validating inputs);
* qsin / slerp: the sine and interpolation bodies of GreatCircleGeometry;
  in exact arithmetic slerp at fraction 1 lands on the segment endpoint;
* nnOrder: the spatial-index collaborator contract - per query, candidates
  are enumerated in non-decreasing order of the caller-defined distance.

The types Point, Distance, BoundingBox and the error enum are declared in a
module of the crate that is not part of the sources at hand (lib.rs refers to
types.rs); they are modelled from the spec's data-model section, with field
names as used by polyline.rs.
-/

/-- Decidable equality for Except values, used to evaluate the embedded
fallible operations on concrete inputs. -/
instance {ε α : Type} [DecidableEq ε] [DecidableEq α] : DecidableEq (Except ε α) := fun x y =>
  match x, y with
  | .error e, .error f => if h : e = f then .isTrue (by rw [h]) else .isFalse (by simp [h])
  | .ok v, .ok w => if h : v = w then .isTrue (by rw [h]) else .isFalse (by simp [h])
  | .error _, .ok _ => .isFalse (by simp)
  | .ok _, .error _ => .isFalse (by simp)

/-- Modelled from the spec: a geographic point, latitude/longitude in degrees
(types.rs is not among the sources; field names follow polyline.rs). -/
structure Point where
  lat : ℚ
  lon : ℚ
deriving DecidableEq, Repr

instance : Inhabited Point := ⟨⟨0, 0⟩⟩

/-- Modelled from the spec: the axis information carried by InvalidVertex. -/
inductive VertexValidationError where
  | Latitude : ℚ → VertexValidationError
  | Longitude : ℚ → VertexValidationError
deriving DecidableEq, Repr

/-- Modelled from the spec: the error taxonomy of the engine.  InvalidDistance
stands for the Distance-construction failure (negative input; NaN/infinite do
not arise over exact rationals). -/
inductive GeodistError where
  | MissingDensificationKnob
  | InvalidVertex (part_index : Option ℕ) (vertex_index : ℕ) (error : VertexValidationError)
  | DegeneratePolyline (part_index : Option ℕ)
  | SampleCapExceeded (expected cap : ℕ) (part_index : Option ℕ)
  | EmptyPointSet
  | InvalidDistance (meters : ℚ)
deriving DecidableEq, Repr

/-- Modelled from the spec: validated wrapper for a finite non-negative meter
value. -/
structure Distance where
  meters : ℚ
deriving DecidableEq, Repr

/-- Modelled from the spec: Distance construction fails on negative input
(NaN/infinity have no rational counterpart). -/
def Distance.from_meters (m : ℚ) : Except GeodistError Distance :=
  if m < 0 then .error (.InvalidDistance m) else .ok ⟨m⟩

/-- Unchecked Distance construction (used by map_directed_witness). -/
def Distance.from_meters_unchecked (m : ℚ) : Distance := ⟨m⟩

/-- Modelled from the spec: inclusive min/max lat/lon bounding box. -/
structure BoundingBox where
  min_lat : ℚ
  max_lat : ℚ
  min_lon : ℚ
  max_lon : ℚ
deriving DecidableEq, Repr

/-- Modelled from the spec: inclusive containment test of a point in a box. -/
def BoundingBox.contains (b : BoundingBox) (p : Point) : Bool :=
  decide (b.min_lat ≤ p.lat ∧ p.lat ≤ b.max_lat ∧ b.min_lon ≤ p.lon ∧ p.lon ≤ b.max_lon)

/-- Modelled from the spec: latitude range bound (constants.rs absent). -/
def MIN_LAT_DEGREES : ℚ := -90

/-- Modelled from the spec: latitude range bound. -/
def MAX_LAT_DEGREES : ℚ := 90

/-- Modelled from the spec: longitude range bound. -/
def MIN_LON_DEGREES : ℚ := -180

/-- Modelled from the spec: longitude range bound. -/
def MAX_LON_DEGREES : ℚ := 180

/-- Modelled from the spec: WGS84 mean Earth radius in meters (the value the
crate's distance tests pin down). -/
def EARTH_RADIUS_METERS : ℚ := 63710087714 / 10000

/-- The geodesic kernel together with the transcendental pieces of
GreatCircleGeometry, abstracted into exact-arithmetic parameters:
`dist` is geodesic_distance(p, q) in meters (total on validated points),
`qsin` is the sine applied to a central angle in radians, `slerp s e t` is
the spherical interpolation body producing the point at fraction `t` of the
arc from `s` to `e`, and `degPerRad` is the radians-to-degrees factor 180/pi
as a number. -/
structure GeodesicKernel where
  dist : Point → Point → ℚ
  qsin : ℚ → ℚ
  slerp : Point → Point → ℚ → Point
  degPerRad : ℚ

/-- Embeds DensificationOptions. -/
structure DensificationOptions where
  max_segment_length_m : Option ℚ
  max_segment_angle_deg : Option ℚ
  sample_cap : ℕ
deriving DecidableEq, Repr

/-- Embeds DensificationOptions::validate: only presence of a knob is
checked. -/
def DensificationOptions.validate (o : DensificationOptions) : Except GeodistError Unit :=
  if o.max_segment_length_m = none ∧ o.max_segment_angle_deg = none then
    .error .MissingDensificationKnob
  else
    .ok ()

/-- Embeds FlattenedPolyline. -/
structure FlattenedPolyline where
  samples : List Point
  part_offsets : List ℕ
deriving DecidableEq, Repr

/-- The loop body of FlattenedPolyline::clip: slice the window out of the
flattened samples, filter it against the box, and extend the filtered
samples, the offsets, and the running total. -/
def clip_step (bounding_box : BoundingBox) (samples : List Point)
    (acc : List Point × List ℕ × ℕ) (w : ℕ × ℕ) : List Point × List ℕ × ℕ :=
  let part_slice := (samples.drop w.1).take (w.2 - w.1)
  let kept := part_slice.filter (fun pt => bounding_box.contains pt)
  let running := acc.2.2 + kept.length
  (acc.1 ++ kept, acc.2.1 ++ [running], running)

/-- Embeds FlattenedPolyline::clip: filter each part's slice against the box,
re-derive offsets from a running total, and fail on an empty result. -/
def FlattenedPolyline.clip (p : FlattenedPolyline) (bounding_box : BoundingBox) :
    Except GeodistError FlattenedPolyline :=
  let windows := p.part_offsets.zip p.part_offsets.tail
  let res := windows.foldl (clip_step bounding_box p.samples) ([], [0], 0)
  if res.1.isEmpty then .error .EmptyPointSet
  else .ok { samples := res.1, part_offsets := res.2.1 }

/-- The tail loop of collapse_duplicates: keep a vertex when it differs from
the previously kept one. -/
def collapse_after (last : Point) : List Point → List Point
  | [] => []
  | w :: rest => if last = w then collapse_after last rest else w :: collapse_after w rest

/-- Embeds collapse_duplicates: drop vertices equal to the previously kept
one, preserving order. -/
def collapse_duplicates : List Point → List Point
  | [] => []
  | v :: rest => v :: collapse_after v rest

/-- Embeds VertexValidator::check_vertices: report the first out-of-range
coordinate with its index and axis. -/
def check_vertices (part_index : Option ℕ) : ℕ → List Point → Except GeodistError Unit
  | _, [] => .ok ()
  | index, v :: rest =>
    if v.lat < MIN_LAT_DEGREES ∨ MAX_LAT_DEGREES < v.lat then
      .error (.InvalidVertex part_index index (.Latitude v.lat))
    else if v.lon < MIN_LON_DEGREES ∨ MAX_LON_DEGREES < v.lon then
      .error (.InvalidVertex part_index index (.Longitude v.lon))
    else
      check_vertices part_index (index + 1) rest

/-- Embeds validate_polyline: validate ranges, collapse duplicates, and demand
at least two distinct vertices. -/
def validate_polyline (vertices : List Point) (part_index : Option ℕ) :
    Except GeodistError (List Point) := do
  check_vertices part_index 0 vertices
  let deduped := collapse_duplicates vertices
  if deduped.length < 2 then .error (.DegeneratePolyline part_index) else .ok deduped

/-- Embeds SegmentDescriptor, instantiated at GreatCircleGeometry whose
segment data is the central angle in radians. -/
structure SegmentDescriptor where
  start_index : ℕ
  end_index : ℕ
  split_count : ℕ
  geometry : ℚ
deriving DecidableEq, Repr

instance : Inhabited SegmentDescriptor := ⟨⟨0, 0, 0, 0⟩⟩

/-- Embeds GreatCircleGeometry::segment_split_count.  The source converts
radians to degrees by multiplying with 180/pi; the factor is the kernel's
`degPerRad` parameter here.  The `as usize` casts clamp at zero, mirrored by
Int.toNat. -/
def segment_split_count (degPerRad : ℚ) (distance_m central_angle_rad : ℚ)
    (options : DensificationOptions) : ℕ :=
  let splits : ℕ := 1
  let splits :=
    match options.max_segment_length_m with
    | some max_length =>
      if 0 < max_length then max splits (⌈distance_m / max_length⌉.toNat) else splits
    | none => splits
  let splits :=
    match options.max_segment_angle_deg with
    | some max_angle =>
      if 0 < max_angle then
        max splits (⌈(central_angle_rad * degPerRad) / max_angle⌉.toNat)
      else splits
    | none => splits
  max splits 1

/-- Embeds GreatCircleGeometry::describe_segment: zero-length segments are
skipped; otherwise the central angle is distance over the Earth radius and
the split count comes from segment_split_count.  (The source propagates
kernel errors; over validated vertices the kernel is total, so the result is
an Option.) -/
def describe_segment (K : GeodesicKernel) (ps pe : Point)
    (options : DensificationOptions) (start_index : ℕ) : Option SegmentDescriptor :=
  let distance := K.dist ps pe
  if distance = 0 then none
  else
    let central_angle_rad := distance / EARTH_RADIUS_METERS
    some { start_index := start_index, end_index := start_index + 1,
           split_count := segment_split_count K.degPerRad distance central_angle_rad options,
           geometry := central_angle_rad }

/-- Embeds build_segments: describe each consecutive window of vertices,
keeping retained descriptors in order. -/
def build_segments (K : GeodesicKernel) (vertices : List Point)
    (options : DensificationOptions) : List SegmentDescriptor :=
  (vertices.zip vertices.tail).enum.filterMap
    (fun iw => describe_segment K iw.2.1 iw.2.2 options iw.1)

/-- Embeds GreatCircleGeometry::interpolate_segment: when the sine of the
central angle is zero push the endpoint, otherwise emit the slerp points at
fractions step/split_count for step in 1..=split_count. -/
def interpolate_segment (K : GeodesicKernel) (ps pe : Point)
    (descriptor : SegmentDescriptor) : List Point :=
  let sin_delta := K.qsin descriptor.geometry
  if sin_delta = 0 then [pe]
  else
    (List.range descriptor.split_count).map
      (fun (step : ℕ) => K.slerp ps pe (((step : ℚ) + 1) / (descriptor.split_count : ℚ)))

/-- Embeds densify_segments: with no retained segments emit the single
retained vertex; otherwise pre-check the projected total against the cap and
emit the first retained segment's start vertex followed by each segment's
interpolation. -/
def densify_segments (K : GeodesicKernel) (segments : List SegmentDescriptor)
    (vertices : List Point) (sample_cap : ℕ) (part_index : Option ℕ) :
    Except GeodistError (List Point) :=
  if segments.isEmpty then
    .ok (match vertices.head? with | some v => [v] | none => [])
  else
    let total_samples := 1 + (segments.map (fun s => s.split_count)).sum
    if sample_cap < total_samples then
      .error (.SampleCapExceeded total_samples sample_cap part_index)
    else
      .ok ((vertices.getD (segments.headD default).start_index default) ::
        segments.flatMap (fun seg =>
          interpolate_segment K (vertices.getD seg.start_index default)
            (vertices.getD seg.end_index default) seg))

/-- Embeds densify_polyline (with GreatCircleGeometry inlined, as it is the
only geometry the public API instantiates). -/
def densify_polyline (K : GeodesicKernel) (vertices : List Point)
    (options : DensificationOptions) : Except GeodistError (List Point) := do
  options.validate
  let deduped ← validate_polyline vertices none
  let segments := build_segments K deduped options
  densify_segments K segments deduped options.sample_cap none

/-- Embeds the per-part loop of densify_multiline_with_geometry: validate the
part, pre-check the running projected total against the cap, then emit and
extend the offsets by the previous last offset plus the emitted length. -/
def densify_multiline_go (K : GeodesicKernel) (options : DensificationOptions) :
    ℕ → ℕ → List ℕ → List Point → List (List Point) →
    Except GeodistError FlattenedPolyline
  | _, _, offsets, acc, [] => .ok { samples := acc, part_offsets := offsets }
  | part_index, total_samples, offsets, acc, part :: rest => do
    let deduped ← validate_polyline part (some part_index)
    let segments := build_segments K deduped options
    let expected := 1 + (segments.map (fun s => s.split_count)).sum
    let predicted_total := total_samples + expected
    if options.sample_cap < predicted_total then
      .error (.SampleCapExceeded predicted_total options.sample_cap (some part_index))
    else do
      let samples ← densify_segments K segments deduped options.sample_cap (some part_index)
      densify_multiline_go K options (part_index + 1) predicted_total
        (offsets ++ [offsets.getLast?.getD 0 + samples.length]) (acc ++ samples) rest

/-- Embeds densify_multiline. -/
def densify_multiline (K : GeodesicKernel) (parts : List (List Point))
    (options : DensificationOptions) : Except GeodistError FlattenedPolyline := do
  options.validate
  densify_multiline_go K options 0 0 [0] [] parts

/-- Embeds WITNESS_DISTANCE_TOLERANCE_M. -/
def WITNESS_DISTANCE_TOLERANCE_M : ℚ := 1 / 10 ^ 12

/-- Embeds MIN_INDEXED_POLYLINE_SIZE. -/
def MIN_INDEXED_POLYLINE_SIZE : ℕ := 32

/-- Embeds MAX_NAIVE_CROSS_PRODUCT. -/
def MAX_NAIVE_CROSS_PRODUCT : ℕ := 4000

/-- Embeds HausdorffStrategy. -/
inductive HausdorffStrategy where
  | Naive
  | Indexed
deriving DecidableEq, Repr

/-- Embeds PolylineSample. -/
structure PolylineSample where
  point : Point
  part_index : ℕ
  vertex_index : ℕ
deriving DecidableEq, Repr

/-- Embeds DirectedPolylineWitness. -/
structure DirectedPolylineWitness where
  distance_m : ℚ
  source : PolylineSample
  target : PolylineSample
deriving DecidableEq, Repr

/-- Embeds PolylineHausdorffOptions. -/
structure PolylineHausdorffOptions where
  symmetric : Bool
  bounding_box : Option BoundingBox
  return_witness : Bool
  max_segment_length_m : Option ℚ
  max_segment_angle_deg : Option ℚ
  sample_cap : ℕ
deriving DecidableEq, Repr

/-- Embeds PolylineHausdorffOptions::densification_options. -/
def PolylineHausdorffOptions.densification_options (o : PolylineHausdorffOptions) :
    DensificationOptions :=
  { max_segment_length_m := o.max_segment_length_m,
    max_segment_angle_deg := o.max_segment_angle_deg,
    sample_cap := o.sample_cap }

/-- Embeds PolylineWitness. -/
structure PolylineWitness where
  distance : Distance
  source_part : ℕ
  source_index : ℕ
  target_part : ℕ
  target_index : ℕ
  source_coord : Point
  target_coord : Point
deriving DecidableEq, Repr

/-- Embeds PolylineHausdorffResult. -/
structure PolylineHausdorffResult where
  distance : Distance
  witness : Option PolylineWitness
deriving DecidableEq, Repr

/-- Embeds clip_if_needed. -/
def clip_if_needed (polyline : FlattenedPolyline) (bounding_box : Option BoundingBox) :
    Except GeodistError FlattenedPolyline :=
  match bounding_box with
  | some bbox => polyline.clip bbox
  | none => .ok polyline

/-- Embeds enumerate_samples: per part window, attribute each sample with its
part index and its vertex index within the part. -/
def enumerate_samples (polyline : FlattenedPolyline) : List PolylineSample :=
  (polyline.part_offsets.zip polyline.part_offsets.tail).enum.flatMap
    (fun pw =>
      (((polyline.samples.drop pw.2.1).take (pw.2.2 - pw.2.1)).enum).map
        (fun ve => { point := ve.2, part_index := pw.1, vertex_index := ve.1 }))

/-- Embeds pick_symmetric_witness. -/
def pick_symmetric_witness (a_to_b b_to_a : DirectedPolylineWitness) :
    DirectedPolylineWitness :=
  if |a_to_b.distance_m - b_to_a.distance_m| ≤ WITNESS_DISTANCE_TOLERANCE_M then a_to_b
  else if b_to_a.distance_m < a_to_b.distance_m then a_to_b
  else b_to_a

/-- Embeds map_directed_witness. -/
def map_directed_witness (witness : DirectedPolylineWitness) : PolylineWitness :=
  { distance := Distance.from_meters_unchecked witness.distance_m,
    source_part := witness.source.part_index,
    source_index := witness.source.vertex_index,
    target_part := witness.target.part_index,
    target_index := witness.target.vertex_index,
    source_coord := witness.source.point,
    target_coord := witness.target.point }

/-- Embeds directed_witness (total over validated points, like the kernel). -/
def directed_witness (dist : Point → Point → ℚ) (origin candidate : PolylineSample) :
    DirectedPolylineWitness :=
  { distance_m := dist origin.point candidate.point, source := origin, target := candidate }

/-- Embeds prefers_target: strictly closer by more than the tolerance, or a
near-tie broken toward the lexicographically smaller target index. -/
def prefers_target (current candidate : DirectedPolylineWitness) : Bool :=
  decide (candidate.distance_m + WITNESS_DISTANCE_TOLERANCE_M < current.distance_m) ||
    (decide (|candidate.distance_m - current.distance_m| ≤ WITNESS_DISTANCE_TOLERANCE_M) &&
      (decide (candidate.target.part_index < current.target.part_index) ||
        (decide (candidate.target.part_index = current.target.part_index) &&
          decide (candidate.target.vertex_index < current.target.vertex_index))))

/-- Embeds prefers_worse_witness: strictly farther by more than the tolerance,
or a near-tie broken toward the lexicographically smaller source index, then
smaller target index. -/
def prefers_worse_witness (current candidate : DirectedPolylineWitness) : Bool :=
  decide (current.distance_m + WITNESS_DISTANCE_TOLERANCE_M < candidate.distance_m) ||
    (decide (|candidate.distance_m - current.distance_m| ≤ WITNESS_DISTANCE_TOLERANCE_M) &&
      (decide (candidate.source.part_index < current.source.part_index) ||
        (decide (candidate.source.part_index = current.source.part_index) &&
          (decide (candidate.source.vertex_index < current.source.vertex_index) ||
            (decide (candidate.source.vertex_index = current.source.vertex_index) &&
              (decide (candidate.target.part_index < current.target.part_index) ||
                (decide (candidate.target.part_index = current.target.part_index) &&
                  decide (candidate.target.vertex_index < current.target.vertex_index))))))))

/-- The loop body of the inner candidate scan of
hausdorff_directed_polyline_naive. -/
def naive_nearest_step (dist : Point → Point → ℚ) (origin : PolylineSample)
    (nearest : Option DirectedPolylineWitness) (candidate : PolylineSample) :
    Option DirectedPolylineWitness :=
  let witness := directed_witness dist origin candidate
  match nearest with
  | some current => if prefers_target current witness then some witness else some current
  | none => some witness

/-- The inner candidate scan of hausdorff_directed_polyline_naive. -/
def naive_nearest (dist : Point → Point → ℚ) (origin : PolylineSample)
    (candidates : List PolylineSample) : Option DirectedPolylineWitness :=
  candidates.foldl (naive_nearest_step dist origin) none

/-- Exact lexicographic preference key on (distance, target part, target
vertex), the tolerance-free order that prefers_target implements when
distances are either equal or separated by more than the tolerance. -/
def tgt_key (w : DirectedPolylineWitness) : ℚ ×ₗ (ℕ ×ₗ ℕ) :=
  toLex (w.distance_m, toLex (w.target.part_index, w.target.vertex_index))

/-- Strict exact target-preference order. -/
def tgt_lt (w₁ w₂ : DirectedPolylineWitness) : Prop := tgt_key w₁ < tgt_key w₂

instance (w₁ w₂ : DirectedPolylineWitness) : Decidable (tgt_lt w₁ w₂) :=
  inferInstanceAs (Decidable (tgt_key w₁ < tgt_key w₂))

/-- Two meter values that are either exactly equal or separated by more than
the witness tolerance. -/
def eps_separated (v₁ v₂ : ℚ) : Prop :=
  v₁ = v₂ ∨ WITNESS_DISTANCE_TOLERANCE_M < |v₁ - v₂|

instance (v₁ v₂ : ℚ) : Decidable (eps_separated v₁ v₂) :=
  inferInstanceAs (Decidable (v₁ = v₂ ∨ WITNESS_DISTANCE_TOLERANCE_M < |v₁ - v₂|))

/-- The step of the exact (tolerance-free) nearest-candidate fold. -/
def exact_nearest_step (dist : Point → Point → ℚ) (origin : PolylineSample)
    (acc : Option DirectedPolylineWitness) (candidate : PolylineSample) :
    Option DirectedPolylineWitness :=
  let w := directed_witness dist origin candidate
  match acc with
  | some cur => if tgt_lt w cur then some w else some cur
  | none => some w

/-- Strict lexicographic order on sample indices (part, then vertex). -/
def idx_lt (a b : PolylineSample) : Prop :=
  a.part_index < b.part_index ∨
    (a.part_index = b.part_index ∧ a.vertex_index < b.vertex_index)

instance (a b : PolylineSample) : Decidable (idx_lt a b) :=
  inferInstanceAs (Decidable (a.part_index < b.part_index ∨
    (a.part_index = b.part_index ∧ a.vertex_index < b.vertex_index)))

/-- The outer accumulation step shared by both directed strategies. -/
def worst_step (best : Option DirectedPolylineWitness)
    (nearest : DirectedPolylineWitness) : Option DirectedPolylineWitness :=
  match best with
  | some current => if prefers_worse_witness current nearest then some nearest else some current
  | none => some nearest

/-- Embeds hausdorff_directed_polyline_naive. -/
def hausdorff_directed_polyline_naive (dist : Point → Point → ℚ)
    (origins candidates : List PolylineSample) :
    Except GeodistError DirectedPolylineWitness :=
  let best := origins.foldl
    (fun best origin =>
      match naive_nearest dist origin candidates with
      | some nearest_witness => worst_step best nearest_witness
      | none => best)
    none
  match best with
  | some w => .ok w
  | none => .error .EmptyPointSet

/-- The candidate loop of hausdorff_directed_polyline_indexed: continue on a
strict improvement, resolve near-ties via prefers_target, and break once a
candidate is worse by more than the tolerance.  The final branch mirrors the
loop falling through without hitting continue or break (unreachable over a
linear order, but kept for faithfulness). -/
def indexed_scan (dist : Point → Point → ℚ) (origin : PolylineSample) :
    DirectedPolylineWitness → List PolylineSample → DirectedPolylineWitness
  | nearest, [] => nearest
  | nearest, candidate :: rest =>
    let witness := directed_witness dist origin candidate
    if witness.distance_m + WITNESS_DISTANCE_TOLERANCE_M < nearest.distance_m then
      indexed_scan dist origin witness rest
    else if |witness.distance_m - nearest.distance_m| ≤ WITNESS_DISTANCE_TOLERANCE_M then
      indexed_scan dist origin
        (if prefers_target nearest witness then witness else nearest) rest
    else if nearest.distance_m + WITNESS_DISTANCE_TOLERANCE_M < witness.distance_m then
      nearest
    else
      indexed_scan dist origin nearest rest

/-- The per-origin loop of hausdorff_directed_polyline_indexed.  `nnOrder`
models the spatial index's nearest-neighbor enumeration for a given query
point over the indexed candidate set. -/
def indexed_best (dist : Point → Point → ℚ)
    (nnOrder : Point → List PolylineSample → List PolylineSample)
    (candidates : List PolylineSample) :
    Option DirectedPolylineWitness → List PolylineSample →
    Except GeodistError (Option DirectedPolylineWitness)
  | best, [] => .ok best
  | best, origin :: rest =>
    match nnOrder origin.point candidates with
    | [] => .error .EmptyPointSet
    | first :: more =>
      let nearest := indexed_scan dist origin (directed_witness dist origin first) more
      indexed_best dist nnOrder candidates (worst_step best nearest) rest

/-- Embeds hausdorff_directed_polyline_indexed. -/
def hausdorff_directed_polyline_indexed (dist : Point → Point → ℚ)
    (nnOrder : Point → List PolylineSample → List PolylineSample)
    (origins candidates : List PolylineSample) :
    Except GeodistError DirectedPolylineWitness := do
  match ← indexed_best dist nnOrder candidates none origins with
  | some w => .ok w
  | none => .error .EmptyPointSet

/-- Embeds should_use_naive. -/
def should_use_naive (a_len b_len : ℕ) : Bool :=
  decide (min a_len b_len < MIN_INDEXED_POLYLINE_SIZE) ||
    decide (a_len * b_len ≤ MAX_NAIVE_CROSS_PRODUCT)

/-- Embeds choose_strategy. -/
def choose_strategy (a_len b_len : ℕ) : HausdorffStrategy :=
  if should_use_naive a_len b_len then .Naive else .Indexed

/-- Embeds hausdorff_directed_polyline (the strategy dispatcher). -/
def hausdorff_directed_polyline (dist : Point → Point → ℚ)
    (nnOrder : Point → List PolylineSample → List PolylineSample)
    (origins candidates : List PolylineSample) :
    Except GeodistError DirectedPolylineWitness :=
  if origins.isEmpty || candidates.isEmpty then .error .EmptyPointSet
  else
    match choose_strategy origins.length candidates.length with
    | .Naive => hausdorff_directed_polyline_naive dist origins candidates
    | .Indexed => hausdorff_directed_polyline_indexed dist nnOrder origins candidates

/-- Embeds hausdorff_polyline: densify both operands, clip if requested,
enumerate, then evaluate one or both directions. -/
def hausdorff_polyline (K : GeodesicKernel)
    (nnOrder : Point → List PolylineSample → List PolylineSample)
    (polyline_a polyline_b : List (List Point))
    (options : PolylineHausdorffOptions) :
    Except GeodistError PolylineHausdorffResult := do
  let densification := options.densification_options
  let samples_a ← densify_multiline K polyline_a densification
  let samples_b ← densify_multiline K polyline_b densification
  let clipped_a ← clip_if_needed samples_a options.bounding_box
  let clipped_b ← clip_if_needed samples_b options.bounding_box
  let enumerated_a := enumerate_samples clipped_a
  let enumerated_b := enumerate_samples clipped_b
  if options.symmetric then do
    let forward ← hausdorff_directed_polyline K.dist nnOrder enumerated_a enumerated_b
    let reverse ← hausdorff_directed_polyline K.dist nnOrder enumerated_b enumerated_a
    let dominant := pick_symmetric_witness forward reverse
    let distance ← Distance.from_meters dominant.distance_m
    .ok { distance := distance,
          witness := if options.return_witness then some (map_directed_witness dominant) else none }
  else do
    let directed ← hausdorff_directed_polyline K.dist nnOrder enumerated_a enumerated_b
    let distance ← Distance.from_meters directed.distance_m
    .ok { distance := distance,
          witness := if options.return_witness then some (map_directed_witness directed) else none }

/-- A simple concrete kernel for evaluating the embedding on small inputs:
distinct points are 111195 m apart, the sine parameter is never zero, and
interpolation at fraction 1 lands on the endpoint. -/
def unitKernel : GeodesicKernel :=
  { dist := fun p q => if p = q then 0 else 111195,
    qsin := fun _ => 1,
    slerp := fun _ pe t => if t = 1 then pe else ⟨0, 0⟩,
    degPerRad := 5729578 / 100000 }

/-- Options with a negative length knob and no angle knob (for C7). -/
def negKnobOptions : DensificationOptions :=
  { max_segment_length_m := some (-1), max_segment_angle_deg := none, sample_cap := 100 }

/-- A two-vertex equatorial polyline used by concrete evaluations. -/
def twoVertexLine : List Point := [⟨0, 0⟩, ⟨0, 1⟩]

/-- The spec requirement on options: at least one spacing knob is non-null
and positive (stated by the spec's configuration section). -/
def knob_configured (o : DensificationOptions) : Bool :=
  (match o.max_segment_length_m with | some m => decide (0 < m) | none => false) ||
    (match o.max_segment_angle_deg with | some a => decide (0 < a) | none => false)

/-- The projected sample count of a validated (deduplicated) part: one plus
the sum of its segment split counts. -/
def expected_samples (K : GeodesicKernel) (options : DensificationOptions)
    (deduped : List Point) : ℕ :=
  1 + ((build_segments K deduped options).map (fun s => s.split_count)).sum

/-- Cumulative projected sample count over the first j+1 parts (given their
deduplicated forms). -/
def projected_cum (K : GeodesicKernel) (options : DensificationOptions)
    (ds : List (List Point)) (j : ℕ) : ℕ :=
  ((ds.take (j + 1)).map (expected_samples K options)).sum

/-- Two parts used to exercise the sample cap (C2). -/
def capParts : List (List Point) := [[⟨0, 0⟩, ⟨0, 1⟩], [⟨1, 0⟩, ⟨1, 1⟩]]

/-- Options whose cap of 2 is exceeded by the first part of capParts. -/
def capOptions : DensificationOptions :=
  { max_segment_length_m := some 50000, max_segment_angle_deg := none, sample_cap := 2 }

/-- Roomy options under which capParts densifies successfully. -/
def roomyOptions : DensificationOptions :=
  { max_segment_length_m := some 50000, max_segment_angle_deg := none, sample_cap := 100 }

/-- The offsets table induced by a list of per-part sample lists: running
sums of the part lengths, starting at 0. -/
def offsets_of (pss : List (List Point)) : List ℕ :=
  List.scanl (fun acc l => acc + l.length) 0 pss

/-- The samples of part i of a flattened polyline, as delimited by its
offsets. -/
def part_slice (p : FlattenedPolyline) (i : ℕ) : List Point :=
  (p.samples.drop (p.part_offsets.getD i 0)).take
    (p.part_offsets.getD (i + 1) 0 - p.part_offsets.getD i 0)

/-- A box keeping only the origin, used to exercise clipping. -/
def originBox : BoundingBox := { min_lat := 0, max_lat := 0, min_lon := 0, max_lon := 0 }

/-- The densified samples of capParts under roomyOptions, part by part. -/
def densPss : List (List Point) :=
  [[⟨0, 0⟩, ⟨0, 0⟩, ⟨0, 0⟩, ⟨0, 1⟩], [⟨1, 0⟩, ⟨0, 0⟩, ⟨0, 0⟩, ⟨1, 1⟩]]

/-- The flattened result of densifying capParts under roomyOptions. -/
def densFlat : FlattenedPolyline :=
  { samples := [⟨0, 0⟩, ⟨0, 0⟩, ⟨0, 0⟩, ⟨0, 1⟩, ⟨1, 0⟩, ⟨0, 0⟩, ⟨0, 0⟩, ⟨1, 1⟩],
    part_offsets := [0, 4, 8] }

/-- densFlat clipped to the origin box. -/
def clipFlat : FlattenedPolyline :=
  { samples := [⟨0, 0⟩, ⟨0, 0⟩, ⟨0, 0⟩, ⟨0, 0⟩, ⟨0, 0⟩], part_offsets := [0, 3, 5] }

/-- A kernel realizing the exact-arithmetic behavior of the spherical
formula at the north pole: two distinct points both at latitude 90 are at
great-circle distance exactly 0 (haversine of zero latitude difference with
cos 90 = 0), while other distinct pairs here are a quarter circumference
apart. -/
def poleKernel : GeodesicKernel :=
  { dist := fun p q =>
      if p.lat = 90 ∧ q.lat = 90 then 0 else if p = q then 0 else 10007557,
    qsin := fun _ => 1,
    slerp := fun _ pe t => if t = 1 then pe else ⟨0, 0⟩,
    degPerRad := 5729578 / 100000 }

/-- Three distinct valid vertices whose first pair is at distance zero. -/
def poleVerts : List Point := [⟨90, 0⟩, ⟨90, 50⟩, ⟨0, 0⟩]

/-- Options for the pole scenario: one generous length knob. -/
def poleOptions : DensificationOptions :=
  { max_segment_length_m := some 20000000, max_segment_angle_deg := none, sample_cap := 100 }

/-- A trivial enumeration order (identity): adequate for inputs small enough
that the dispatcher always picks the brute-force strategy. -/
def idOrder : Point → List PolylineSample → List PolylineSample := fun _ l => l

/-- Operand A for symmetric evaluations: one equatorial two-vertex part. -/
def symA : List (List Point) := [[⟨0, 0⟩, ⟨0, 1⟩]]

/-- Operand B for symmetric evaluations: a parallel-shifted part. -/
def symB : List (List Point) := [[⟨1, 0⟩, ⟨1, 1⟩]]

/-- Symmetric witness-requesting options with a generous length knob. -/
def symOptions : PolylineHausdorffOptions :=
  { symmetric := true, bounding_box := none, return_witness := true,
    max_segment_length_m := some 1000000, max_segment_angle_deg := none,
    sample_cap := 1000 }

/-- The result of the symmetric evaluation of symA against symB under
unitKernel. -/
def symRes : PolylineHausdorffResult :=
  { distance := ⟨111195⟩,
    witness := some { distance := ⟨111195⟩, source_part := 0, source_index := 0,
                      target_part := 0, target_index := 0,
                      source_coord := ⟨0, 0⟩, target_coord := ⟨1, 0⟩ } }

/-- Counterexample instance for the indexed-vs-naive comparison: one origin
and three candidates whose distances to the origin form the sub-tolerance
near-tie chain 0, 9e-13, 17e-13 (tolerance 1e-12). -/
def cexDist : Point → Point → ℚ := fun p q => |p.lon - q.lon| / 10 ^ 13

def cexOrigin : PolylineSample := ⟨⟨0, 0⟩, 0, 0⟩

def cexCands : List PolylineSample :=
  [⟨⟨0, 17⟩, 0, 0⟩, ⟨⟨0, 9⟩, 0, 1⟩, ⟨⟨0, 0⟩, 0, 2⟩]

/-- The nearest-neighbor enumeration for the counterexample: sorted by
distance to the (unique) origin. -/
def cexOrder : Point → List PolylineSample → List PolylineSample :=
  fun _ _ => [⟨⟨0, 0⟩, 0, 2⟩, ⟨⟨0, 9⟩, 0, 1⟩, ⟨⟨0, 17⟩, 0, 0⟩]

/-- A well-separated two-candidate instance (distances 1 and 3 m). -/
def sepDist : Point → Point → ℚ := fun p q => |p.lon - q.lon|

def sepCands : List PolylineSample := [⟨⟨0, 1⟩, 0, 0⟩, ⟨⟨0, 3⟩, 0, 1⟩]

/-- Self-comparison counterexample set: three samples whose pairwise
distances under cexDist are 0, 8e-13, 9e-13 and 17e-13 — a sub-tolerance
near-tie chain. -/
def selfA : List PolylineSample :=
  [⟨⟨0, 0⟩, 0, 0⟩, ⟨⟨0, 8⟩, 0, 1⟩, ⟨⟨0, 17⟩, 0, 2⟩]

/-- The per-query sorted nearest-neighbor enumeration of selfA under
cexDist. -/
def selfOrder3 : Point → List PolylineSample → List PolylineSample :=
  fun p _ =>
    if p.lon = 0 then [⟨⟨0, 0⟩, 0, 0⟩, ⟨⟨0, 8⟩, 0, 1⟩, ⟨⟨0, 17⟩, 0, 2⟩]
    else if p.lon = 8 then [⟨⟨0, 8⟩, 0, 1⟩, ⟨⟨0, 0⟩, 0, 0⟩, ⟨⟨0, 17⟩, 0, 2⟩]
    else [⟨⟨0, 17⟩, 0, 2⟩, ⟨⟨0, 8⟩, 0, 1⟩, ⟨⟨0, 0⟩, 0, 0⟩]

/-- Well-separated two-sample self-comparison set (distance 1 m apart). -/
def selfA2 : List PolylineSample := [⟨⟨0, 0⟩, 0, 0⟩, ⟨⟨0, 1⟩, 0, 1⟩]

/-- The per-query sorted nearest-neighbor enumeration of selfA2 under
sepDist. -/
def selfOrder2 : Point → List PolylineSample → List PolylineSample :=
  fun p _ =>
    if p.lon = 0 then [⟨⟨0, 0⟩, 0, 0⟩, ⟨⟨0, 1⟩, 0, 1⟩]
    else [⟨⟨0, 1⟩, 0, 1⟩, ⟨⟨0, 0⟩, 0, 0⟩]

unseal Rat.add Rat.mul Rat.sub Rat.inv Rat.ofScientific

/-- C4: strategy selection is a pure function of the two candidate-set sizes:
brute force is chosen exactly when min of the sizes is below 32 or their
product is at most 4000, and the indexed strategy exactly otherwise. -/
theorem choose_strategy_spec (a_len b_len : ℕ) :
    (choose_strategy a_len b_len = .Naive ↔
      (min a_len b_len < 32 ∨ a_len * b_len ≤ 4000)) ∧
    (choose_strategy a_len b_len = .Indexed ↔
      ¬ (min a_len b_len < 32 ∨ a_len * b_len ≤ 4000)) := by
  unfold choose_strategy should_use_naive MIN_INDEXED_POLYLINE_SIZE MAX_NAIVE_CROSS_PRODUCT
  by_cases h : min a_len b_len < 32 ∨ a_len * b_len ≤ 4000
  · rcases h with h | h <;> simp_all
  · push_neg at h
    simp_all [Nat.not_lt.mpr h.1, Nat.not_le.mpr h.2]

/-- C3: the split count for a segment of chord length d and central angle a
(a given in radians, converted with the kernel's degrees-per-radian factor)
equals the maximum of 1 and the ceiling requirements of every configured
(present and positive) knob; an absent or non-positive knob contributes the
neutral requirement 1. -/
theorem segment_split_count_spec (degPerRad distance_m central_angle_rad : ℚ)
    (options : DensificationOptions) :
    segment_split_count degPerRad distance_m central_angle_rad options =
      max 1 (max
        (match options.max_segment_length_m with
          | some max_length =>
            if 0 < max_length then ⌈distance_m / max_length⌉.toNat else 1
          | none => 1)
        (match options.max_segment_angle_deg with
          | some max_angle =>
            if 0 < max_angle then ⌈(central_angle_rad * degPerRad) / max_angle⌉.toNat else 1
          | none => 1)) := by
  unfold segment_split_count
  rcases options with ⟨ml, ma, cap⟩
  cases ml <;> cases ma <;> simp only [] <;> first
    | omega
    | (split_ifs <;> omega)

lemma except_bind_ok {ε α β : Type} (a : α) (f : α → Except ε β) :
    (Except.ok a >>= f) = f a := rfl

lemma except_bind_error {ε α β : Type} (e : ε) (f : α → Except ε β) :
    ((Except.error e : Except ε α) >>= f) = .error e := rfl

lemma check_vertices_error_shape :
    ∀ (l : List Point) (pi : Option ℕ) (i : ℕ) (e : GeodistError),
      check_vertices pi i l = .error e → ∃ vi ve, e = .InvalidVertex pi vi ve := by
  intro l
  induction l with
  | nil => intro pi i e h; simp [check_vertices] at h
  | cons v rest ih =>
    intro pi i e h
    unfold check_vertices at h
    split_ifs at h with h1 h2
    · exact ⟨i, .Latitude v.lat, by injection h with h; exact h.symm⟩
    · exact ⟨i, .Longitude v.lon, by injection h with h; exact h.symm⟩
    · exact ih pi (i + 1) e h

lemma validate_polyline_error_shape (v : List Point) (pi : Option ℕ) (e : GeodistError)
    (h : validate_polyline v pi = .error e) :
    (∃ vi ve, e = .InvalidVertex pi vi ve) ∨ e = .DegeneratePolyline pi := by
  unfold validate_polyline at h
  cases hc : check_vertices pi 0 v with
  | error f =>
    rw [hc, except_bind_error] at h
    injection h with h
    obtain ⟨vi, ve, hve⟩ := check_vertices_error_shape v pi 0 f hc
    exact Or.inl ⟨vi, ve, by rw [← h, hve]⟩
  | ok u =>
    cases u
    rw [hc, except_bind_ok] at h
    dsimp only at h
    split_ifs at h
    · injection h with h; exact Or.inr h.symm

lemma densify_segments_error_shape (K : GeodesicKernel) (segs : List SegmentDescriptor)
    (v : List Point) (cap : ℕ) (pi : Option ℕ) (e : GeodistError)
    (h : densify_segments K segs v cap pi = .error e) :
    ∃ n, e = .SampleCapExceeded n cap pi := by
  unfold densify_segments at h
  split at h
  · simp at h
  · dsimp only at h
    split at h
    · exact ⟨1 + (segs.map (fun s => s.split_count)).sum,
        by injection h with h; exact h.symm⟩
    · simp at h

lemma densify_multiline_go_ne_missing (K : GeodesicKernel) (options : DensificationOptions) :
    ∀ (parts : List (List Point)) (i total : ℕ) (offs : List ℕ) (acc : List Point),
      densify_multiline_go K options i total offs acc parts ≠
        .error .MissingDensificationKnob := by
  intro parts
  induction parts with
  | nil => intro i total offs acc h; simp [densify_multiline_go] at h
  | cons p rest ih =>
    intro i total offs acc h
    unfold densify_multiline_go at h
    cases hv : validate_polyline p (some i) with
    | error e =>
      rw [hv, except_bind_error] at h
      injection h with h
      rcases validate_polyline_error_shape p (some i) e hv with ⟨vi, ve, he⟩ | he <;>
        simp [he] at h
    | ok d =>
      rw [hv, except_bind_ok] at h
      dsimp only at h
      split_ifs at h with hcap
      · injection h with h; simp at h
      · cases hd : densify_segments K (build_segments K d options) d
            options.sample_cap (some i) with
        | error e =>
          rw [hd, except_bind_error] at h
          injection h with h
          obtain ⟨n, hn⟩ := densify_segments_error_shape K _ d _ _ e hd
          simp [hn] at h
        | ok s =>
          rw [hd, except_bind_ok] at h
          exact ih _ _ _ _ h

/-- C7 (amended): densify_polyline and densify_multiline fail with
MissingDensificationKnob exactly when both spacing knobs are null; positivity
of a present knob is not part of the check (a present non-positive knob is
merely ignored when computing split counts). -/
theorem densification_missing_knob_iff (K : GeodesicKernel) (vertices : List Point)
    (parts : List (List Point)) (options : DensificationOptions) :
    (densify_polyline K vertices options = .error .MissingDensificationKnob ↔
      options.max_segment_length_m = none ∧ options.max_segment_angle_deg = none) ∧
    (densify_multiline K parts options = .error .MissingDensificationKnob ↔
      options.max_segment_length_m = none ∧ options.max_segment_angle_deg = none) := by
  by_cases hb : options.max_segment_length_m = none ∧ options.max_segment_angle_deg = none
  · refine ⟨⟨fun _ => hb, fun _ => ?_⟩, ⟨fun _ => hb, fun _ => ?_⟩⟩
    · unfold densify_polyline DensificationOptions.validate
      rw [if_pos hb, except_bind_error]
    · unfold densify_multiline DensificationOptions.validate
      rw [if_pos hb, except_bind_error]
  · have hv : options.validate = .ok () := by
      unfold DensificationOptions.validate; rw [if_neg hb]
    constructor
    · constructor
      · intro h
        exfalso
        unfold densify_polyline at h
        rw [hv, except_bind_ok] at h
        cases hval : validate_polyline vertices none with
        | error e =>
          rw [hval, except_bind_error] at h
          injection h with h
          rcases validate_polyline_error_shape vertices none e hval with ⟨vi, ve, he⟩ | he <;>
            simp [he] at h
        | ok d =>
          rw [hval, except_bind_ok] at h
          dsimp only at h
          cases hd : densify_segments K (build_segments K d options) d
              options.sample_cap none with
          | error e =>
            rw [hd] at h
            injection h with h
            obtain ⟨n, hn⟩ := densify_segments_error_shape K _ d _ _ e hd
            simp [hn] at h
          | ok s => rw [hd] at h; exact Except.noConfusion h
      · intro h; exact absurd h hb
    · constructor
      · intro h
        exfalso
        unfold densify_multiline at h
        rw [hv, except_bind_ok] at h
        exact densify_multiline_go_ne_missing K options parts 0 0 [0] [] h
      · intro h; exact absurd h hb

/-- C7 counterexample: options carrying only a negative length knob fail the
spec requirement that at least one knob be non-null and positive, yet
densify_polyline does not fail with MissingDensificationKnob - it succeeds,
because the code checks mere presence of a knob and later ignores
non-positive values. -/
theorem missing_knob_claim_cex :
    knob_configured negKnobOptions = false ∧
    densify_polyline unitKernel twoVertexLine negKnobOptions =
      .ok [⟨0, 0⟩, ⟨0, 1⟩] := by
  constructor
  · decide
  · decide

lemma build_segments_split_pos (K : GeodesicKernel) (vs : List Point)
    (options : DensificationOptions) :
    ∀ seg ∈ build_segments K vs options, 1 ≤ seg.split_count := by
  intro seg hseg
  unfold build_segments at hseg
  rw [List.mem_filterMap] at hseg
  obtain ⟨iw, _, hdesc⟩ := hseg
  unfold describe_segment at hdesc
  dsimp only at hdesc
  split_ifs at hdesc
  injection hdesc with hdesc
  rw [← hdesc]
  unfold segment_split_count
  exact Nat.le_max_right _ 1

lemma interpolate_segment_length_le (K : GeodesicKernel) (ps pe : Point)
    (seg : SegmentDescriptor) (h : 1 ≤ seg.split_count) :
    (interpolate_segment K ps pe seg).length ≤ seg.split_count := by
  unfold interpolate_segment
  dsimp only
  split_ifs
  · simpa using h
  · rw [List.length_map, List.length_range]

lemma densify_segments_ok_length (K : GeodesicKernel) (segs : List SegmentDescriptor)
    (vs : List Point) (cap : ℕ) (pi : Option ℕ) (out : List Point)
    (hpos : ∀ seg ∈ segs, 1 ≤ seg.split_count)
    (h : densify_segments K segs vs cap pi = .ok out) :
    out.length ≤ 1 + (segs.map (fun s => s.split_count)).sum := by
  unfold densify_segments at h
  split at h
  · injection h with h
    rw [← h]
    cases vs.head? <;> simp
  · dsimp only at h
    split at h
    · exact Except.noConfusion h
    · injection h with h
      rw [← h]
      simp only [List.length_cons, List.length_flatMap, Function.comp]
      have : ∀ l : List SegmentDescriptor, (∀ seg ∈ l, 1 ≤ seg.split_count) →
          (l.map (List.length ∘ fun seg => interpolate_segment K
            (vs.getD seg.start_index default)
            (vs.getD seg.end_index default) seg)).sum ≤
          (l.map (fun s => s.split_count)).sum := by
        intro l
        induction l with
        | nil => intro _; simp
        | cons s rest ih =>
          intro hl
          simp only [List.map_cons, List.sum_cons, Function.comp_apply]
          exact Nat.add_le_add
            (interpolate_segment_length_le K _ _ s (hl s (by simp)))
            (ih (fun seg hseg => hl seg (by simp [hseg])))
      have hs := this segs hpos
      omega

lemma densify_segments_ok_of_le (K : GeodesicKernel) (segs : List SegmentDescriptor)
    (vs : List Point) (cap : ℕ) (pi : Option ℕ)
    (h : 1 + (segs.map (fun s => s.split_count)).sum ≤ cap) :
    ∃ out, densify_segments K segs vs cap pi = .ok out := by
  unfold densify_segments
  split
  · exact ⟨_, rfl⟩
  · dsimp only
    rw [if_neg (by omega)]
    exact ⟨_, rfl⟩

lemma densify_multiline_go_ok_length (K : GeodesicKernel)
    (options : DensificationOptions) :
    ∀ (parts : List (List Point)) (i total : ℕ) (offs : List ℕ) (acc : List Point)
      (p : FlattenedPolyline),
      acc.length ≤ total → total ≤ options.sample_cap →
      densify_multiline_go K options i total offs acc parts = .ok p →
      p.samples.length ≤ options.sample_cap := by
  intro parts
  induction parts with
  | nil =>
    intro i total offs acc p hacc htot h
    unfold densify_multiline_go at h
    injection h with h
    rw [← h]
    exact le_trans hacc htot
  | cons q rest ih =>
    intro i total offs acc p hacc htot h
    unfold densify_multiline_go at h
    cases hv : validate_polyline q (some i) with
    | error e => rw [hv, except_bind_error] at h; exact Except.noConfusion h
    | ok d =>
      rw [hv, except_bind_ok] at h
      dsimp only at h
      by_cases hcap : options.sample_cap <
          total + (1 + ((build_segments K d options).map (fun s => s.split_count)).sum)
      · rw [if_pos hcap] at h; exact Except.noConfusion h
      · rw [if_neg hcap] at h
        cases hd : densify_segments K (build_segments K d options) d
            options.sample_cap (some i) with
        | error e => rw [hd, except_bind_error] at h; exact Except.noConfusion h
        | ok samples =>
          rw [hd, except_bind_ok] at h
          refine ih _ _ _ _ _ ?_ (by omega) h
          have hlen := densify_segments_ok_length K _ d _ _ samples
            (build_segments_split_pos K d options) hd
          simp only [List.length_append]
          omega

lemma densify_multiline_go_cap_err (K : GeodesicKernel) (options : DensificationOptions) :
    ∀ (ps ds : List (List Point)) (j i total : ℕ) (offs : List ℕ) (acc : List Point),
      ds.length = ps.length →
      (∀ k, k < ps.length →
        validate_polyline (ps.getD k []) (some (i + k)) = .ok (ds.getD k [])) →
      j < ps.length →
      options.sample_cap < total + projected_cum K options ds j →
      (∀ k, k < j → total + projected_cum K options ds k ≤ options.sample_cap) →
      densify_multiline_go K options i total offs acc ps =
        .error (.SampleCapExceeded (total + projected_cum K options ds j)
          options.sample_cap (some (i + j))) := by
  intro ps
  induction ps with
  | nil => intro ds j i total offs acc _ _ hj _ _; exact absurd hj (by simp)
  | cons q rest ih =>
    intro ds j i total offs acc hlen hv hj hover hbefore
    cases ds with
    | nil => simp at hlen
    | cons d dr =>
      have hv0 : validate_polyline q (some i) = .ok d := by
        have := hv 0 (by simp)
        simpa using this
      have hcum0 : projected_cum K options (d :: dr) 0 = expected_samples K options d := by
        simp [projected_cum]
      unfold densify_multiline_go
      rw [hv0, except_bind_ok]
      dsimp only
      have hexp : 1 + ((build_segments K d options).map (fun s => s.split_count)).sum =
          expected_samples K options d := rfl
      cases j with
      | zero =>
        rw [hcum0] at hover
        rw [hexp, if_pos (by omega)]
        rw [hcum0]
        norm_num
      | succ j' =>
        have h0 : total + expected_samples K options d ≤ options.sample_cap := by
          have := hbefore 0 (Nat.succ_pos j')
          rw [hcum0] at this
          exact this
        rw [hexp, if_neg (by omega)]
        obtain ⟨out, hout⟩ := densify_segments_ok_of_le K (build_segments K d options) d
          options.sample_cap (some i) (by rw [hexp]; omega)
        rw [hout, except_bind_ok]
        have hcums : ∀ m, projected_cum K options (d :: dr) (m + 1) =
            expected_samples K options d + projected_cum K options dr m := by
          intro m
          simp [projected_cum, List.take_cons]
        have := ih dr j' (i + 1) (total + expected_samples K options d)
          (offs ++ [offs.getLast?.getD 0 + out.length]) (acc ++ out)
          (by simpa using hlen)
          (by
            intro k hk
            have := hv (k + 1) (by simpa using Nat.succ_lt_succ hk)
            have harith : i + (k + 1) = i + 1 + k := by omega
            simpa [harith] using this)
          (by simpa using Nat.lt_of_succ_lt_succ (by simpa using hj))
          (by rw [hcums j'] at hover; omega)
          (by
            intro k hk
            have := hbefore (k + 1) (Nat.succ_lt_succ hk)
            rw [hcums k] at this
            omega)
        rw [this]
        rw [hcums j']
        have harith2 : i + 1 + j' = i + (j' + 1) := by omega
        have harith3 : total + expected_samples K options d + projected_cum K options dr j' =
            total + (expected_samples K options d + projected_cum K options dr j') := by omega
        rw [harith2, harith3]

/-- C2 (sample cap): a successful densify_multiline never returns more than
sample_cap samples; and when every part validates and the cumulative
projected sample count (one plus the sum of split counts per part, summed
across parts) first exceeds the cap at part j, the call fails with
SampleCapExceeded carrying that projected count, the cap, and the index j,
emitting no output. -/
theorem densify_multiline_cap_spec (K : GeodesicKernel) (parts : List (List Point))
    (options : DensificationOptions) :
    (∀ p, densify_multiline K parts options = .ok p →
      p.samples.length ≤ options.sample_cap) ∧
    (∀ (ds : List (List Point)) (j : ℕ),
      options.validate = .ok () →
      ds.length = parts.length →
      (∀ k, k < parts.length →
        validate_polyline (parts.getD k []) (some k) = .ok (ds.getD k [])) →
      j < parts.length →
      options.sample_cap < projected_cum K options ds j →
      (∀ k, k < j → projected_cum K options ds k ≤ options.sample_cap) →
      densify_multiline K parts options =
        .error (.SampleCapExceeded (projected_cum K options ds j)
          options.sample_cap (some j))) := by
  constructor
  · intro p h
    unfold densify_multiline at h
    cases hval : options.validate with
    | error e => rw [hval, except_bind_error] at h; exact Except.noConfusion h
    | ok u =>
      cases u
      rw [hval, except_bind_ok] at h
      exact densify_multiline_go_ok_length K options parts 0 0 [0] [] p
        (by simp) (by simp) h
  · intro ds j hval hlen hv hj hover hbefore
    unfold densify_multiline
    rw [hval, except_bind_ok]
    have := densify_multiline_go_cap_err K options parts ds j 0 0 [0] []
      (hlen.symm ▸ hlen) (by simpa using hv) hj (by simpa using hover)
      (by simpa using hbefore)
    simpa using this

/-- Witness for C2: the first part of capParts alone projects to 4 samples
against a cap of 2 and fails with part index 0; the same parts under a cap of
100 succeed with at most 100 samples. -/
theorem densify_multiline_cap_spec_witness :
    densify_multiline unitKernel capParts capOptions =
      .error (.SampleCapExceeded (projected_cum unitKernel capOptions capParts 0)
        capOptions.sample_cap (some 0)) ∧
    ∀ p, densify_multiline unitKernel capParts roomyOptions = .ok p →
      p.samples.length ≤ roomyOptions.sample_cap := by
  constructor
  · exact (densify_multiline_cap_spec unitKernel capParts capOptions).2 capParts 0
      (by decide) rfl (by decide) (by decide) (by decide)
      (fun k hk => absurd hk (Nat.not_lt_zero k))
  · exact (densify_multiline_cap_spec unitKernel capParts roomyOptions).1

lemma scanl_add_head (a : ℕ) (pss : List (List Point)) :
    (List.scanl (fun acc l => acc + l.length) a pss).head? = some a := by
  cases pss <;> rfl

lemma scanl_add_ne_nil (a : ℕ) (pss : List (List Point)) :
    List.scanl (fun acc l => acc + l.length) a pss ≠ [] := by
  cases pss <;> simp [List.scanl_cons, List.scanl_nil]

lemma scanl_add_length (a : ℕ) (pss : List (List Point)) :
    (List.scanl (fun acc l => acc + l.length) a pss).length = pss.length + 1 :=
  List.length_scanl a pss

lemma scanl_add_chain (pss : List (List Point)) :
    ∀ a : ℕ, (List.scanl (fun acc l => acc + l.length) a pss).Chain' (· ≤ ·) := by
  induction pss with
  | nil => intro a; simp [List.scanl_nil]
  | cons x xs ih =>
    intro a
    rw [List.scanl_cons, List.singleton_append, List.chain'_cons']
    refine ⟨?_, ih (a + x.length)⟩
    intro y hy
    rw [scanl_add_head] at hy
    injection hy with hy
    omega

lemma scanl_add_getLast (pss : List (List Point)) :
    ∀ a : ℕ, (List.scanl (fun acc l => acc + l.length) a pss).getLast? =
      some (a + pss.flatten.length) := by
  induction pss with
  | nil => intro a; simp [List.scanl_nil]
  | cons x xs ih =>
    intro a
    rw [List.scanl_cons]
    cases hxs : xs with
    | nil => simp [List.scanl_nil, List.getLast?_cons_cons]
    | cons y ys =>
      rw [← hxs]
      have hne := scanl_add_ne_nil (a + x.length) xs
      calc (a :: List.scanl (fun acc l => acc + l.length) (a + x.length) xs).getLast?
          = (List.scanl (fun acc l => acc + l.length) (a + x.length) xs).getLast? := by
            cases hs : List.scanl (fun acc l => acc + l.length) (a + x.length) xs with
            | nil => exact absurd hs hne
            | cons z zs => exact List.getLast?_cons_cons
        _ = some (a + x.length + xs.flatten.length) := ih (a + x.length)
        _ = some (a + (x :: xs).flatten.length) := by
            simp [List.flatten_cons]
            omega

lemma scanl_add_base (xs : List (List Point)) :
    ∀ (a i : ℕ), i ≤ xs.length →
      (List.scanl (fun acc l => acc + l.length) a xs).getD i 0 =
        a + (List.scanl (fun acc l => acc + l.length) 0 xs).getD i 0 := by
  induction xs with
  | nil =>
    intro a i hi
    have h0 : i = 0 := Nat.le_zero.mp hi
    subst h0
    simp [List.scanl_nil]
  | cons x xs ih =>
    intro a i hi
    cases i with
    | zero => simp [List.scanl_cons]
    | succ i' =>
      rw [List.scanl_cons, List.scanl_cons]
      simp only [List.singleton_append, List.getD_cons_succ]
      rw [ih (a + x.length) i' (by simpa using hi), ih (0 + x.length) i' (by simpa using hi)]
      omega

lemma flattening_slice : ∀ (pss : List (List Point)) (i : ℕ), i < pss.length →
    ((pss.flatten.drop ((offsets_of pss).getD i 0)).take
      ((offsets_of pss).getD (i + 1) 0 - (offsets_of pss).getD i 0)) = pss.getD i [] := by
  intro pss
  induction pss with
  | nil => intro i hi; simp at hi
  | cons x xs ih =>
    intro i hi
    cases i with
    | zero =>
      have h0 : (offsets_of (x :: xs)).getD 0 0 = 0 := by
        simp [offsets_of, List.scanl_cons, List.singleton_append]
      have h1 : (offsets_of (x :: xs)).getD 1 0 = x.length := by
        simp only [offsets_of, List.scanl_cons, List.singleton_append, List.getD_cons_succ]
        have := scanl_add_head x.length xs
        cases hs : List.scanl (fun acc l => acc + l.length) x.length xs with
        | nil => exact absurd hs (scanl_add_ne_nil _ _)
        | cons z zs => rw [hs] at this; injection this with this; simp [this]
      rw [h0, h1]
      simp only [List.flatten_cons, List.drop_zero, Nat.sub_zero, List.getD_cons_zero]
      exact List.take_left x xs.flatten
    | succ i' =>
      have hi' : i' < xs.length := by simpa using hi
      have hshift : ∀ m, (offsets_of (x :: xs)).getD (m + 1) 0 =
          (List.scanl (fun acc l => acc + l.length) x.length xs).getD m 0 := by
        intro m
        simp [offsets_of, List.scanl_cons, List.singleton_append]
      rw [hshift, hshift]
      rw [scanl_add_base xs x.length i' (le_of_lt hi'),
        scanl_add_base xs x.length (i' + 1) hi']
      simp only [List.flatten_cons, List.getD_cons_succ]
      have hdrop : (x ++ xs.flatten).drop
          (x.length + (List.scanl (fun acc l => acc + l.length) 0 xs).getD i' 0) =
          xs.flatten.drop ((List.scanl (fun acc l => acc + l.length) 0 xs).getD i' 0) := by
        rw [List.drop_append]
      rw [hdrop]
      have harith : x.length + (List.scanl (fun acc l => acc + l.length) 0 xs).getD (i' + 1) 0 -
          (x.length + (List.scanl (fun acc l => acc + l.length) 0 xs).getD i' 0) =
          (List.scanl (fun acc l => acc + l.length) 0 xs).getD (i' + 1) 0 -
          (List.scanl (fun acc l => acc + l.length) 0 xs).getD i' 0 := by omega
      rw [harith]
      exact ih i' hi'

lemma scanl_add_append_one (l : List Point) :
    ∀ (pss : List (List Point)) (a : ℕ),
      List.scanl (fun acc m => acc + m.length) a (pss ++ [l]) =
        List.scanl (fun acc m => acc + m.length) a pss ++
          [a + pss.flatten.length + l.length] := by
  intro pss
  induction pss with
  | nil =>
    intro a
    simp [List.scanl_cons, List.scanl_nil]
  | cons x xs ih =>
    intro a
    rw [List.cons_append, List.scanl_cons, List.scanl_cons, ih (a + x.length)]
    simp [List.flatten_cons, Nat.add_assoc]

lemma offsets_of_append_one (pss : List (List Point)) (l : List Point) :
    offsets_of (pss ++ [l]) =
      offsets_of pss ++ [(offsets_of pss).getLast?.getD 0 + l.length] := by
  unfold offsets_of
  rw [scanl_add_append_one l pss 0, scanl_add_getLast pss 0]
  simp

lemma densify_multiline_go_flattening (K : GeodesicKernel)
    (options : DensificationOptions) :
    ∀ (parts : List (List Point)) (i total : ℕ) (pssAcc : List (List Point))
      (p : FlattenedPolyline),
      densify_multiline_go K options i total (offsets_of pssAcc) pssAcc.flatten parts =
        .ok p →
      ∃ pssNew, pssNew.length = parts.length ∧
        p.samples = (pssAcc ++ pssNew).flatten ∧
        p.part_offsets = offsets_of (pssAcc ++ pssNew) ∧
        (∀ k, k < parts.length → ∃ d,
          validate_polyline (parts.getD k []) (some (i + k)) = .ok d ∧
          densify_segments K (build_segments K d options) d options.sample_cap
            (some (i + k)) = .ok (pssNew.getD k [])) := by
  intro parts
  induction parts with
  | nil =>
    intro i total pssAcc p h
    unfold densify_multiline_go at h
    injection h with h
    refine ⟨[], rfl, ?_, ?_, fun k hk => absurd hk (by simp)⟩
    · rw [← h]; simp
    · rw [← h]; simp
  | cons q rest ih =>
    intro i total pssAcc p h
    unfold densify_multiline_go at h
    cases hv : validate_polyline q (some i) with
    | error e => rw [hv, except_bind_error] at h; exact Except.noConfusion h
    | ok d =>
      rw [hv, except_bind_ok] at h
      dsimp only at h
      by_cases hcap : options.sample_cap <
          total + (1 + ((build_segments K d options).map (fun s => s.split_count)).sum)
      · rw [if_pos hcap] at h; exact Except.noConfusion h
      · rw [if_neg hcap] at h
        cases hd : densify_segments K (build_segments K d options) d
            options.sample_cap (some i) with
        | error e => rw [hd, except_bind_error] at h; exact Except.noConfusion h
        | ok samples =>
          rw [hd, except_bind_ok] at h
          have hoffs : offsets_of pssAcc ++
              [(offsets_of pssAcc).getLast?.getD 0 + samples.length] =
              offsets_of (pssAcc ++ [samples]) :=
            (offsets_of_append_one pssAcc samples).symm
          have hsam : pssAcc.flatten ++ samples = (pssAcc ++ [samples]).flatten := by
            simp
          rw [hoffs, hsam] at h
          obtain ⟨pssNew, hlen, hs, ho, hparts⟩ := ih (i + 1) _ (pssAcc ++ [samples]) p h
          refine ⟨samples :: pssNew, by simpa using hlen, ?_, ?_, ?_⟩
          · rw [hs]; simp
          · rw [ho]; simp
          · intro k hk
            cases k with
            | zero =>
              refine ⟨d, by simpa using hv, ?_⟩
              simpa using hd
            | succ k' =>
              obtain ⟨d', hd1, hd2⟩ := hparts k' (by simpa using hk)
              have harith : i + 1 + k' = i + (k' + 1) := by omega
              rw [harith] at hd1 hd2
              exact ⟨d', hd1, by simpa using hd2⟩

lemma clip_step_eq (bb : BoundingBox) (samples : List Point)
    (acc : List Point × List ℕ × ℕ) (w : ℕ × ℕ) :
    clip_step bb samples acc w =
      (acc.1 ++ ((samples.drop w.1).take (w.2 - w.1)).filter (fun pt => bb.contains pt),
       acc.2.1 ++ [acc.2.2 +
         (((samples.drop w.1).take (w.2 - w.1)).filter (fun pt => bb.contains pt)).length],
       acc.2.2 +
         (((samples.drop w.1).take (w.2 - w.1)).filter (fun pt => bb.contains pt)).length) :=
  rfl

lemma clip_fold_spec (bb : BoundingBox) (samples : List Point) :
    ∀ (pss : List (List Point)) (a : ℕ) (accF : List Point) (accO : List ℕ) (accR : ℕ),
      samples.drop a = pss.flatten →
      ((List.scanl (fun acc l => acc + l.length) a pss).zip
          (List.scanl (fun acc l => acc + l.length) a pss).tail).foldl
        (clip_step bb samples) (accF, accO, accR) =
      (accF ++ (pss.map (fun l => l.filter (fun pt => bb.contains pt))).flatten,
       accO ++ (List.scanl (fun acc l => acc + l.length) accR
         (pss.map (fun l => l.filter (fun pt => bb.contains pt)))).tail,
       accR + (pss.map (fun l => l.filter (fun pt => bb.contains pt))).flatten.length) := by
  intro pss
  induction pss with
  | nil =>
    intro a accF accO accR hdrop
    simp [List.scanl_nil, List.scanl_cons]
  | cons x xs ih =>
    intro a accF accO accR hdrop
    have hhead : List.scanl (fun acc l => acc + l.length) (a + x.length) xs =
        (a + x.length) :: (List.scanl (fun acc l => acc + l.length) (a + x.length) xs).tail := by
      cases xs <;> simp [List.scanl_cons, List.scanl_nil]
    rw [List.scanl_cons, List.singleton_append]
    have hzip : ((a :: List.scanl (fun acc l => acc + l.length) (a + x.length) xs).zip
        (List.scanl (fun acc l => acc + l.length) (a + x.length) xs)) =
        (a, a + x.length) ::
          ((List.scanl (fun acc l => acc + l.length) (a + x.length) xs).zip
            (List.scanl (fun acc l => acc + l.length) (a + x.length) xs).tail) := by
      conv_lhs => rw [hhead]
      simp [List.zip_cons_cons]
      rw [← hhead]
    simp only [List.tail_cons]
    rw [hzip, List.foldl_cons, clip_step_eq]
    have hslice : (samples.drop a).take (a + x.length - a) = x := by
      rw [hdrop, List.flatten_cons]
      have : a + x.length - a = x.length := by omega
      rw [this]
      exact List.take_left x xs.flatten
    dsimp only
    rw [hslice]
    have hdrop' : samples.drop (a + x.length) = xs.flatten := by
      have h2 : (samples.drop a).drop x.length = xs.flatten := by
        rw [hdrop, List.flatten_cons]
        exact List.drop_left x xs.flatten
      rw [List.drop_drop] at h2
      convert h2 using 2
    rw [ih (a + x.length) _ _ _ hdrop']
    have hscan : List.scanl (fun acc l => acc + l.length) accR
        (List.map (fun l => l.filter (fun pt => bb.contains pt)) (x :: xs)) =
        accR :: List.scanl (fun acc l => acc + l.length)
          (accR + (x.filter (fun pt => bb.contains pt)).length)
          (List.map (fun l => l.filter (fun pt => bb.contains pt)) xs) := by
      simp [List.scanl_cons]
    rw [hscan]
    have hscan2 : ∀ (b : ℕ) (L : List (List Point)),
        List.scanl (fun acc l => acc + l.length) b L =
          b :: (List.scanl (fun acc l => acc + l.length) b L).tail := by
      intro b L
      cases L <;> simp [List.scanl_cons, List.scanl_nil]
    refine congrArg₂ Prod.mk ?_ (congrArg₂ Prod.mk ?_ ?_)
    · simp [List.flatten_cons, List.append_assoc]
    · simp only [List.tail_cons]
      conv_rhs => rw [hscan2 (accR + (x.filter (fun pt => bb.contains pt)).length)]
      simp [List.append_assoc]
    · simp [List.flatten_cons]
      omega

/-- C9: a successful densify_multiline over n parts yields a flattened
polyline whose samples are the concatenation of the per-part densified
samples and whose offsets are the running sums: n+1 offsets, first 0,
non-decreasing, last equal to the sample count, and the span between
consecutive offsets is exactly the corresponding part's samples.  A
successful clip of any such flattened polyline filters each part in place
and re-derives offsets with the same invariants. -/
theorem flattened_polyline_invariants (K : GeodesicKernel) (parts : List (List Point))
    (options : DensificationOptions) (bb : BoundingBox) :
    (∀ p, densify_multiline K parts options = .ok p →
      ∃ pss, pss.length = parts.length ∧
        p.samples = pss.flatten ∧
        p.part_offsets = offsets_of pss ∧
        p.part_offsets.length = parts.length + 1 ∧
        p.part_offsets.head? = some 0 ∧
        p.part_offsets.Chain' (· ≤ ·) ∧
        p.part_offsets.getLast? = some p.samples.length ∧
        (∀ k, k < parts.length → part_slice p k = pss.getD k []) ∧
        (∀ k, k < parts.length → ∃ d,
          validate_polyline (parts.getD k []) (some k) = .ok d ∧
          densify_segments K (build_segments K d options) d options.sample_cap (some k) =
            .ok (pss.getD k []))) ∧
    (∀ (pss : List (List Point)) (p q : FlattenedPolyline),
      p.samples = pss.flatten → p.part_offsets = offsets_of pss →
      p.clip bb = .ok q →
      q.samples = (pss.map (fun l => l.filter (fun pt => bb.contains pt))).flatten ∧
      q.part_offsets = offsets_of (pss.map (fun l => l.filter (fun pt => bb.contains pt))) ∧
      q.part_offsets.length = pss.length + 1 ∧
      q.part_offsets.head? = some 0 ∧
      q.part_offsets.Chain' (· ≤ ·) ∧
      q.part_offsets.getLast? = some q.samples.length ∧
      (∀ k, k < pss.length →
        part_slice q k = (pss.getD k []).filter (fun pt => bb.contains pt))) := by
  constructor
  · intro p h
    unfold densify_multiline at h
    cases hval : options.validate with
    | error e => rw [hval, except_bind_error] at h; exact Except.noConfusion h
    | ok u =>
      cases u
      rw [hval, except_bind_ok] at h
      obtain ⟨pssNew, hlen, hs, ho, hparts⟩ :=
        densify_multiline_go_flattening K options parts 0 0 [] p h
      simp only [List.nil_append] at hs ho
      refine ⟨pssNew, hlen, hs, ho, ?_, ?_, ?_, ?_, ?_, ?_⟩
      · rw [ho]; unfold offsets_of; rw [scanl_add_length]; omega
      · rw [ho]; exact scanl_add_head 0 pssNew
      · rw [ho]; exact scanl_add_chain pssNew 0
      · rw [ho, hs]
        have := scanl_add_getLast pssNew 0
        unfold offsets_of
        rw [this]
        simp
      · intro k hk
        unfold part_slice
        rw [hs, ho]
        exact flattening_slice pssNew k (by omega)
      · intro k hk
        obtain ⟨d, h1, h2⟩ := hparts k hk
        exact ⟨d, by simpa using h1, by simpa using h2⟩
  · intro pss p q hs ho h
    unfold FlattenedPolyline.clip at h
    rw [hs, ho] at h
    unfold offsets_of at h
    dsimp only at h
    rw [clip_fold_spec bb pss.flatten pss 0 [] [0] 0 (by simp)] at h
    dsimp only at h
    set filtered := pss.map (fun l => l.filter (fun pt => bb.contains pt)) with hfdef
    have hscan2 : List.scanl (fun acc l => acc + l.length) 0 filtered =
        0 :: (List.scanl (fun acc l => acc + l.length) 0 filtered).tail := by
      cases filtered <;> simp [List.scanl_cons, List.scanl_nil]
    split_ifs at h with hemp
    injection h with h
    rw [← h]
    have hoq : ([0] ++ (List.scanl (fun acc l => acc + l.length) 0 filtered).tail) =
        offsets_of filtered := by
      unfold offsets_of
      rw [List.singleton_append, ← hscan2]
    refine ⟨by simp, by simpa using hoq, ?_, ?_, ?_, ?_, ?_⟩
    · simp only [hoq]
      rw [offsets_of, scanl_add_length]
      simp [hfdef]
    · simp only [hoq]
      exact scanl_add_head 0 filtered
    · simp only [hoq]
      exact scanl_add_chain filtered 0
    · simp only [hoq]
      have := scanl_add_getLast filtered 0
      unfold offsets_of
      rw [this]
      simp
    · intro k hk
      unfold part_slice
      simp only [hoq]
      have hkf : k < filtered.length := by simp [hfdef]; omega
      have := flattening_slice filtered k hkf
      rw [List.nil_append, this]
      rw [hfdef]
      rw [List.getD_eq_getElem?_getD, List.getD_eq_getElem?_getD,
        List.getElem?_map]
      cases hx : pss[k]? with
      | none =>
        have : k < pss.length := by omega
        rw [List.getElem?_eq_none_iff] at hx
        omega
      | some xval => simp

/-- Witness for C9: a concrete two-part densification and its clip, with the
last-offset invariant read off from the invariants theorem. -/
theorem flattened_polyline_invariants_witness :
    (densify_multiline unitKernel capParts roomyOptions = .ok densFlat) ∧
    (densFlat.clip originBox = .ok clipFlat) ∧
    densFlat.part_offsets.getLast? = some densFlat.samples.length ∧
    clipFlat.part_offsets.getLast? = some clipFlat.samples.length := by
  refine ⟨by decide, by decide, ?_, ?_⟩
  · obtain ⟨pss, -, -, -, -, -, -, hlast, -, -⟩ :=
      (flattened_polyline_invariants unitKernel capParts roomyOptions originBox).1
        densFlat (by decide)
    exact hlast
  · have := (flattened_polyline_invariants unitKernel capParts roomyOptions originBox).2
      densPss densFlat clipFlat (by decide) (by decide) (by decide)
    exact this.2.2.2.2.2.1

lemma validate_polyline_ok_inv (vs : List Point) (pi : Option ℕ) (d : List Point)
    (h : validate_polyline vs pi = .ok d) :
    d = collapse_duplicates vs ∧ 2 ≤ d.length := by
  unfold validate_polyline at h
  cases hc : check_vertices pi 0 vs with
  | error f => rw [hc, except_bind_error] at h; exact Except.noConfusion h
  | ok u =>
    cases u
    rw [hc, except_bind_ok] at h
    dsimp only at h
    split_ifs at h with hlen
    injection h with h
    refine ⟨h.symm, ?_⟩
    rw [← h]
    omega

lemma chain'_zip (P : Point → Point → Prop) :
    ∀ l : List Point, l.Chain' P → ∀ w ∈ l.zip l.tail, P w.1 w.2 := by
  intro l
  induction l with
  | nil => intro _ w hw; simp at hw
  | cons x xs ih =>
    intro hchain w hw
    cases xs with
    | nil => simp at hw
    | cons y ys =>
      rw [List.chain'_cons] at hchain
      simp only [List.tail_cons, List.zip_cons_cons, List.mem_cons] at hw
      rcases hw with hw | hw
      · rw [hw]; exact hchain.1
      · exact ih hchain.2 w (by simpa using hw)

lemma segment_split_count_pos (degPerRad distance_m central_angle_rad : ℚ)
    (options : DensificationOptions) :
    1 ≤ segment_split_count degPerRad distance_m central_angle_rad options := by
  unfold segment_split_count
  exact Nat.le_max_right _ 1

lemma interpolate_segment_ne_nil (K : GeodesicKernel) (ps pe : Point)
    (seg : SegmentDescriptor) (h1 : 1 ≤ seg.split_count) :
    interpolate_segment K ps pe seg ≠ [] := by
  unfold interpolate_segment
  dsimp only
  split_ifs
  · simp
  · simp only [ne_eq, List.map_eq_nil_iff, List.range_eq_nil]
    omega

lemma interpolate_segment_getLast (K : GeodesicKernel) (ps pe : Point)
    (seg : SegmentDescriptor) (h1 : 1 ≤ seg.split_count)
    (hslerp : ∀ a b, K.slerp a b 1 = b) :
    (interpolate_segment K ps pe seg).getLast? = some pe := by
  unfold interpolate_segment
  dsimp only
  split_ifs
  · rfl
  · obtain ⟨m, hm⟩ : ∃ m, seg.split_count = m + 1 := ⟨seg.split_count - 1, by omega⟩
    rw [hm, List.range_succ, List.map_append, List.map_singleton, List.getLast?_concat]
    have hq : ((m : ℚ) + 1) / ((m : ℚ) + 1) = 1 := by
      have : ((m : ℚ) + 1) ≠ 0 := by positivity
      field_simp
    simp only [Nat.cast_add, Nat.cast_one]
    rw [hq, hslerp]

lemma enumFrom_getLast (α : Type) :
    ∀ (ws : List α) (n : ℕ) (dflt : ℕ × α), ws ≠ [] →
      (List.enumFrom n ws).getLast?.getD dflt =
        (n + ws.length - 1, ws.getLast?.getD dflt.2) := by
  intro ws
  induction ws with
  | nil => intro n dflt h; exact absurd rfl h
  | cons w rest ih =>
    intro n dflt _
    cases hr : rest with
    | nil => simp [List.enumFrom]
    | cons w' rest' =>
      have hen : List.enumFrom n (w :: w' :: rest') =
          (n, w) :: List.enumFrom (n + 1) (w' :: rest') := rfl
      rw [hen]
      have hcc : ((n, w) :: List.enumFrom (n + 1) (w' :: rest')).getLast? =
          (List.enumFrom (n + 1) (w' :: rest')).getLast? := by
        have hstep : List.enumFrom (n + 1) (w' :: rest') =
            (n + 1, w') :: List.enumFrom (n + 2) rest' := rfl
        rw [hstep]
        exact List.getLast?_cons_cons
      rw [hcc]
      have hr' := ih (n + 1) dflt (by rw [hr]; exact List.cons_ne_nil _ _)
      rw [hr] at hr'
      rw [hr']
      have h1 : n + 1 + (w' :: rest').length - 1 = n + (w :: w' :: rest').length - 1 := by
        simp
        omega
      rw [h1]
      have h2 : (w' :: rest').getLast? = (w :: w' :: rest').getLast? :=
        List.getLast?_cons_cons.symm
      rw [h2]

lemma describe_segment_full (K : GeodesicKernel) (options : DensificationOptions) :
    ∀ (ws : List (Point × Point)) (n : ℕ),
      (∀ w ∈ ws, K.dist w.1 w.2 ≠ 0) →
      (List.enumFrom n ws).filterMap
        (fun iw => describe_segment K iw.2.1 iw.2.2 options iw.1) =
      (List.enumFrom n ws).map (fun iw =>
        { start_index := iw.1, end_index := iw.1 + 1,
          split_count := segment_split_count K.degPerRad (K.dist iw.2.1 iw.2.2)
            (K.dist iw.2.1 iw.2.2 / EARTH_RADIUS_METERS) options,
          geometry := K.dist iw.2.1 iw.2.2 / EARTH_RADIUS_METERS }) := by
  intro ws
  induction ws with
  | nil => intro n h; rfl
  | cons w rest ih =>
    intro n h
    have hen : List.enumFrom n (w :: rest) = (n, w) :: List.enumFrom (n + 1) rest := rfl
    rw [hen, List.filterMap_cons, List.map_cons]
    have hd : describe_segment K w.1 w.2 options n =
        some { start_index := n, end_index := n + 1,
               split_count := segment_split_count K.degPerRad (K.dist w.1 w.2)
                 (K.dist w.1 w.2 / EARTH_RADIUS_METERS) options,
               geometry := K.dist w.1 w.2 / EARTH_RADIUS_METERS } := by
      unfold describe_segment
      dsimp only
      rw [if_neg (h w (by simp))]
    dsimp only
    rw [hd, ih (n + 1) (fun w' hw' => h w' (by simp [hw']))]

lemma getLast_flatMap (f : SegmentDescriptor → List Point) :
    ∀ (l : List SegmentDescriptor), l ≠ [] → (∀ x ∈ l, f x ≠ []) →
      (l.flatMap f).getLast? = (f (l.getLast?.getD default)).getLast? := by
  intro l
  induction l with
  | nil => intro h _; exact absurd rfl h
  | cons x rest ih =>
    intro _ hne
    cases hr : rest with
    | nil => simp
    | cons r rest' =>
      have hfm : (x :: r :: rest').flatMap f = f x ++ (r :: rest').flatMap f := by simp
      rw [hfm]
      have hrest_ne : (r :: rest').flatMap f ≠ [] := by
        simp only [List.flatMap_cons]
        intro hcontra
        have h1 : f r = [] := (List.append_eq_nil.mp hcontra).1
        exact hne r (by simp [hr]) h1
      rw [List.getLast?_append_of_ne_nil (f x) hrest_ne]
      have := ih (by rw [hr]; exact List.cons_ne_nil _ _)
        (fun y hy => hne y (List.mem_cons_of_mem x hy))
      rw [hr] at this
      rw [this]
      have hlast : (x :: r :: rest').getLast? = (r :: rest').getLast? :=
        List.getLast?_cons_cons
      rw [hlast]

lemma getLast?_eq_getD (l : List Point) (h : l ≠ []) :
    l.getLast? = some (l.getD (l.length - 1) default) := by
  have hlt : l.length - 1 < l.length := by
    cases l with
    | nil => exact absurd rfl h
    | cons x xs => simp
  rw [List.getLast?_eq_getElem?, List.getD_eq_getElem?_getD,
    List.getElem?_eq_getElem hlt]
  rfl

/-- C6 (amended): provided no retained consecutive pair is at kernel distance
exactly zero (so no segment is dropped) and interpolation at fraction 1 lands
on the endpoint (true of great-circle interpolation in exact arithmetic),
every successful single-part densification starts at the first deduplicated
vertex and ends exactly at the last deduplicated vertex. -/
theorem densify_endpoints_spec (K : GeodesicKernel) (vertices : List Point)
    (options : DensificationOptions) (samples : List Point)
    (hslerp : ∀ ps pe, K.slerp ps pe 1 = pe)
    (hchain : (collapse_duplicates vertices).Chain' (fun p q => K.dist p q ≠ 0))
    (hok : densify_polyline K vertices options = .ok samples) :
    samples.head? = (collapse_duplicates vertices).head? ∧
    samples.getLast? = (collapse_duplicates vertices).getLast? := by
  unfold densify_polyline at hok
  cases hvo : options.validate with
  | error e => rw [hvo, except_bind_error] at hok; exact Except.noConfusion hok
  | ok u =>
    cases u
    rw [hvo, except_bind_ok] at hok
    cases hval : validate_polyline vertices none with
    | error e => rw [hval, except_bind_error] at hok; exact Except.noConfusion hok
    | ok d =>
      rw [hval, except_bind_ok] at hok
      dsimp only at hok
      obtain ⟨hd, hdlen⟩ := validate_polyline_ok_inv vertices none d hval
      rw [← hd] at hchain
      have hall : ∀ w ∈ d.zip d.tail, K.dist w.1 w.2 ≠ 0 :=
        chain'_zip (fun p q => K.dist p q ≠ 0) d hchain
      have hsegs : build_segments K d options =
          (List.enumFrom 0 (d.zip d.tail)).map (fun iw =>
            { start_index := iw.1, end_index := iw.1 + 1,
              split_count := segment_split_count K.degPerRad (K.dist iw.2.1 iw.2.2)
                (K.dist iw.2.1 iw.2.2 / EARTH_RADIUS_METERS) options,
              geometry := K.dist iw.2.1 iw.2.2 / EARTH_RADIUS_METERS }) := by
        unfold build_segments
        exact describe_segment_full K options (d.zip d.tail) 0 hall
      obtain ⟨x, y, rest, hdxy⟩ : ∃ x y rest, d = x :: y :: rest := by
        cases d with
        | nil => simp at hdlen
        | cons x xs =>
          cases xs with
          | nil => simp at hdlen
          | cons y rest => exact ⟨x, y, rest, rfl⟩
      have hws_ne : d.zip d.tail ≠ [] := by rw [hdxy]; simp
      have hsegs_ne : build_segments K d options ≠ [] := by
        rw [hsegs]
        simp only [ne_eq, List.map_eq_nil_iff]
        intro hcontra
        cases hzz : d.zip d.tail with
        | nil => exact hws_ne hzz
        | cons a b => rw [hzz] at hcontra; exact List.noConfusion hcontra
      unfold densify_segments at hok
      rw [if_neg (by simpa using hsegs_ne)] at hok
      dsimp only at hok
      split_ifs at hok with hcap
      injection hok with hok
      have hsplit_pos : ∀ seg ∈ build_segments K d options, 1 ≤ seg.split_count := by
        intro seg hseg
        rw [hsegs] at hseg
        rw [List.mem_map] at hseg
        obtain ⟨iw, _, hiw⟩ := hseg
        rw [← hiw]
        exact segment_split_count_pos _ _ _ _
      constructor
      · rw [← hok]
        have hhead : (build_segments K d options).headD default =
            { start_index := 0, end_index := 0 + 1,
              split_count := segment_split_count K.degPerRad (K.dist x y)
                (K.dist x y / EARTH_RADIUS_METERS) options,
              geometry := K.dist x y / EARTH_RADIUS_METERS } := by
          rw [hsegs, hdxy]
          rfl
        rw [hhead, ← hd, hdxy]
        rfl
      · rw [← hok]
        set f := fun seg => interpolate_segment K (d.getD seg.start_index default)
          (d.getD seg.end_index default) seg with hf
        have hf_ne : ∀ seg ∈ build_segments K d options, f seg ≠ [] := by
          intro seg hseg
          exact interpolate_segment_ne_nil K _ _ seg (hsplit_pos seg hseg)
        have hfm_ne : (build_segments K d options).flatMap f ≠ [] := by
          cases hbs : build_segments K d options with
          | nil => exact absurd hbs hsegs_ne
          | cons s srest =>
            simp only [List.flatMap_cons]
            intro hcontra
            have h1 : f s = [] := (List.append_eq_nil.mp hcontra).1
            exact hf_ne s (by rw [hbs]; simp) h1
        have hcons : d.getD ((build_segments K d options).headD default).start_index default ::
            (build_segments K d options).flatMap f =
            [d.getD ((build_segments K d options).headD default).start_index default] ++
            (build_segments K d options).flatMap f := rfl
        rw [hcons, List.getLast?_append_of_ne_nil _ hfm_ne]
        rw [getLast_flatMap f (build_segments K d options) hsegs_ne hf_ne]
        set segl := (build_segments K d options).getLast?.getD default with hsegl
        have hmem : segl ∈ build_segments K d options := by
          rw [hsegl, List.getLast?_eq_getLast _ hsegs_ne]
          simp only [Option.getD_some]
          exact List.getLast_mem hsegs_ne
        have hfl : (f segl).getLast? = some (d.getD segl.end_index default) :=
          interpolate_segment_getLast K _ _ segl (hsplit_pos segl hmem) hslerp
        rw [hfl]
        have henil : List.enumFrom 0 (d.zip d.tail) ≠ [] := by
          cases hzz : d.zip d.tail with
          | nil => exact absurd hzz hws_ne
          | cons a b => simp [List.enumFrom]
        obtain ⟨lw, hlw⟩ : ∃ lw, (List.enumFrom 0 (d.zip d.tail)).getLast? = some lw := by
          cases hgl : (List.enumFrom 0 (d.zip d.tail)).getLast? with
          | none => exact absurd (List.getLast?_eq_none_iff.mp hgl) henil
          | some lw => exact ⟨lw, rfl⟩
        have hlw1 : lw.1 = (d.zip d.tail).length - 1 := by
          have hh := enumFrom_getLast (Point × Point) (d.zip d.tail) 0 lw hws_ne
          rw [hlw] at hh
          simp only [Option.getD_some] at hh
          have := congrArg Prod.fst hh
          simpa using this
        have hend : segl.end_index = lw.1 + 1 := by
          rw [hsegl, hsegs, List.getLast?_map, hlw]
          rfl
        have hwslen : (d.zip d.tail).length = d.length - 1 := by
          rw [hdxy]
          simp
        have hend2 : segl.end_index = d.length - 1 := by
          rw [hend, hlw1, hwslen, hdxy]
          simp
        rw [hend2, ← hd]
        rw [getLast?_eq_getD d (by rw [hdxy]; exact List.cons_ne_nil _ _)]

/-- C6 counterexample: a part whose first retained pair is at kernel distance
exactly zero (two distinct vertices at the north pole) densifies
successfully, but its first emitted sample is the second deduplicated vertex,
not the first: the zero-length segment is dropped, and emission starts at the
first retained segment's start vertex. -/
theorem densify_endpoints_cex :
    densify_polyline poleKernel poleVerts poleOptions =
      .ok [⟨90, 50⟩, ⟨0, 0⟩] ∧
    (collapse_duplicates poleVerts).head? = some ⟨90, 0⟩ ∧
    ¬ (([(⟨90, 50⟩ : Point), ⟨0, 0⟩].head?) = (collapse_duplicates poleVerts).head?) := by
  refine ⟨by decide, by decide, by decide⟩

/-- Witness for the amended C6 on a segment with nonzero distance. -/
theorem densify_endpoints_spec_witness :
    densify_polyline unitKernel twoVertexLine roomyOptions =
      .ok [⟨0, 0⟩, ⟨0, 0⟩, ⟨0, 0⟩, ⟨0, 1⟩] ∧
    ([(⟨0, 0⟩ : Point), ⟨0, 0⟩, ⟨0, 0⟩, ⟨0, 1⟩].head? =
        (collapse_duplicates twoVertexLine).head? ∧
      [(⟨0, 0⟩ : Point), ⟨0, 0⟩, ⟨0, 0⟩, ⟨0, 1⟩].getLast? =
        (collapse_duplicates twoVertexLine).getLast?) := by
  have hcol : collapse_duplicates twoVertexLine = [⟨0, 0⟩, ⟨0, 1⟩] := by decide
  have hchain : (collapse_duplicates twoVertexLine).Chain'
      (fun p q => unitKernel.dist p q ≠ 0) := by
    rw [hcol]
    exact List.chain'_pair.mpr (by decide)
  have hslerp : ∀ ps pe, unitKernel.slerp ps pe 1 = pe := by
    intro ps pe
    simp [unitKernel]
  exact ⟨by decide,
    densify_endpoints_spec unitKernel twoVertexLine roomyOptions
      [⟨0, 0⟩, ⟨0, 0⟩, ⟨0, 0⟩, ⟨0, 1⟩] hslerp hchain (by decide)⟩

lemma from_meters_ok (m : ℚ) (dd : Distance) (h : Distance.from_meters m = .ok dd) :
    dd = ⟨m⟩ := by
  unfold Distance.from_meters at h
  split_ifs at h
  injection h with h
  exact h.symm

lemma tol_nonneg : (0 : ℚ) ≤ WITNESS_DISTANCE_TOLERANCE_M := by
  unfold WITNESS_DISTANCE_TOLERANCE_M
  positivity

lemma hausdorff_polyline_ok_shape (K : GeodesicKernel)
    (nnOrder : Point → List PolylineSample → List PolylineSample)
    (a b : List (List Point)) (options : PolylineHausdorffOptions)
    (res : PolylineHausdorffResult)
    (h : hausdorff_polyline K nnOrder a b options = .ok res) :
    ∃ dom : DirectedPolylineWitness, res.distance = ⟨dom.distance_m⟩ ∧
      res.witness =
        (if options.return_witness = true then some (map_directed_witness dom) else none) := by
  simp only [hausdorff_polyline] at h
  cases h1 : densify_multiline K a options.densification_options with
  | error e => rw [h1, except_bind_error] at h; exact Except.noConfusion h
  | ok sa =>
  rw [h1, except_bind_ok] at h
  cases h2 : densify_multiline K b options.densification_options with
  | error e => rw [h2, except_bind_error] at h; exact Except.noConfusion h
  | ok sb =>
  rw [h2, except_bind_ok] at h
  cases h3 : clip_if_needed sa options.bounding_box with
  | error e => rw [h3, except_bind_error] at h; exact Except.noConfusion h
  | ok ca =>
  rw [h3, except_bind_ok] at h
  cases h4 : clip_if_needed sb options.bounding_box with
  | error e => rw [h4, except_bind_error] at h; exact Except.noConfusion h
  | ok cb =>
  rw [h4, except_bind_ok] at h
  cases hsym : options.symmetric with
  | true =>
    rw [hsym] at h
    simp only [if_true] at h
    cases h5 : hausdorff_directed_polyline K.dist nnOrder (enumerate_samples ca)
        (enumerate_samples cb) with
    | error e => rw [h5, except_bind_error] at h; exact Except.noConfusion h
    | ok fwd =>
    rw [h5, except_bind_ok] at h
    cases h6 : hausdorff_directed_polyline K.dist nnOrder (enumerate_samples cb)
        (enumerate_samples ca) with
    | error e => rw [h6, except_bind_error] at h; exact Except.noConfusion h
    | ok rev =>
    rw [h6, except_bind_ok] at h
    cases h7 : Distance.from_meters (pick_symmetric_witness fwd rev).distance_m with
    | error e => rw [h7, except_bind_error] at h; exact Except.noConfusion h
    | ok dd =>
    rw [h7, except_bind_ok] at h
    injection h with h
    refine ⟨pick_symmetric_witness fwd rev, ?_, ?_⟩
    · rw [← h]
      rw [from_meters_ok _ dd h7]
    · rw [← h]
  | false =>
    rw [hsym] at h
    simp only [Bool.false_eq_true, if_false] at h
    cases h5 : hausdorff_directed_polyline K.dist nnOrder (enumerate_samples ca)
        (enumerate_samples cb) with
    | error e => rw [h5, except_bind_error] at h; exact Except.noConfusion h
    | ok directed =>
    rw [h5, except_bind_ok] at h
    cases h7 : Distance.from_meters directed.distance_m with
    | error e => rw [h7, except_bind_error] at h; exact Except.noConfusion h
    | ok dd =>
    rw [h7, except_bind_ok] at h
    injection h with h
    refine ⟨directed, ?_, ?_⟩
    · rw [← h]
      rw [from_meters_ok _ dd h7]
    · rw [← h]

/-- C10: a successful hausdorff_polyline returns a witness exactly when
return_witness was requested, and the witness's distance equals the top-level
distance exactly. -/
theorem hausdorff_witness_spec (K : GeodesicKernel)
    (nnOrder : Point → List PolylineSample → List PolylineSample)
    (a b : List (List Point)) (options : PolylineHausdorffOptions)
    (res : PolylineHausdorffResult)
    (hok : hausdorff_polyline K nnOrder a b options = .ok res) :
    (res.witness.isSome ↔ options.return_witness = true) ∧
    (∀ w, res.witness = some w → w.distance.meters = res.distance.meters) := by
  obtain ⟨dom, hdist, hwit⟩ := hausdorff_polyline_ok_shape K nnOrder a b options res hok
  constructor
  · rw [hwit]
    cases hr : options.return_witness <;> simp
  · intro w hw
    rw [hwit] at hw
    cases hr : options.return_witness with
    | false => rw [hr] at hw; simp at hw
    | true =>
      rw [hr] at hw
      simp only [if_true] at hw
      injection hw with hw
      rw [← hw, hdist]
      rfl

/-- Witness for C10 on a concrete symmetric evaluation. -/
theorem hausdorff_witness_spec_witness :
    hausdorff_polyline unitKernel idOrder symA symB symOptions = .ok symRes ∧
    (symRes.witness.isSome ↔ symOptions.return_witness = true) ∧
    (∀ w, symRes.witness = some w → w.distance.meters = symRes.distance.meters) := by
  have h : hausdorff_polyline unitKernel idOrder symA symB symOptions = .ok symRes := by
    decide
  exact ⟨h, hausdorff_witness_spec unitKernel idOrder symA symB symOptions symRes h⟩

lemma hausdorff_polyline_ok_symmetric_inv (K : GeodesicKernel)
    (nnOrder : Point → List PolylineSample → List PolylineSample)
    (a b : List (List Point)) (options : PolylineHausdorffOptions)
    (res : PolylineHausdorffResult)
    (hsym : options.symmetric = true)
    (h : hausdorff_polyline K nnOrder a b options = .ok res) :
    ∃ ca cb fwd rev,
      hausdorff_directed_polyline K.dist nnOrder (enumerate_samples ca)
        (enumerate_samples cb) = .ok fwd ∧
      hausdorff_directed_polyline K.dist nnOrder (enumerate_samples cb)
        (enumerate_samples ca) = .ok rev ∧
      (∃ sa sb, densify_multiline K a options.densification_options = .ok sa ∧
        densify_multiline K b options.densification_options = .ok sb ∧
        clip_if_needed sa options.bounding_box = .ok ca ∧
        clip_if_needed sb options.bounding_box = .ok cb) ∧
      res.distance = ⟨(pick_symmetric_witness fwd rev).distance_m⟩ ∧
      res.witness = (if options.return_witness = true then
        some (map_directed_witness (pick_symmetric_witness fwd rev)) else none) := by
  simp only [hausdorff_polyline] at h
  cases h1 : densify_multiline K a options.densification_options with
  | error e => rw [h1, except_bind_error] at h; exact Except.noConfusion h
  | ok sa =>
  rw [h1, except_bind_ok] at h
  cases h2 : densify_multiline K b options.densification_options with
  | error e => rw [h2, except_bind_error] at h; exact Except.noConfusion h
  | ok sb =>
  rw [h2, except_bind_ok] at h
  cases h3 : clip_if_needed sa options.bounding_box with
  | error e => rw [h3, except_bind_error] at h; exact Except.noConfusion h
  | ok ca =>
  rw [h3, except_bind_ok] at h
  cases h4 : clip_if_needed sb options.bounding_box with
  | error e => rw [h4, except_bind_error] at h; exact Except.noConfusion h
  | ok cb =>
  rw [h4, except_bind_ok] at h
  rw [hsym] at h
  simp only [if_true] at h
  cases h5 : hausdorff_directed_polyline K.dist nnOrder (enumerate_samples ca)
      (enumerate_samples cb) with
  | error e => rw [h5, except_bind_error] at h; exact Except.noConfusion h
  | ok fwd =>
  rw [h5, except_bind_ok] at h
  cases h6 : hausdorff_directed_polyline K.dist nnOrder (enumerate_samples cb)
      (enumerate_samples ca) with
  | error e => rw [h6, except_bind_error] at h; exact Except.noConfusion h
  | ok rev =>
  rw [h6, except_bind_ok] at h
  cases h7 : Distance.from_meters (pick_symmetric_witness fwd rev).distance_m with
  | error e => rw [h7, except_bind_error] at h; exact Except.noConfusion h
  | ok dd =>
  rw [h7, except_bind_ok] at h
  injection h with h
  refine ⟨ca, cb, fwd, rev, h5, h6, ⟨sa, sb, rfl, rfl, h3, h4⟩, ?_, ?_⟩ <;> rw [← h]
  rw [from_meters_ok _ dd h7]

lemma pick_symmetric_props (fwd rev : DirectedPolylineWitness) :
    |(pick_symmetric_witness fwd rev).distance_m - max fwd.distance_m rev.distance_m| ≤
      WITNESS_DISTANCE_TOLERANCE_M ∧
    (WITNESS_DISTANCE_TOLERANCE_M < |fwd.distance_m - rev.distance_m| →
      (pick_symmetric_witness fwd rev).distance_m = max fwd.distance_m rev.distance_m) ∧
    (|fwd.distance_m - rev.distance_m| ≤ WITNESS_DISTANCE_TOLERANCE_M →
      pick_symmetric_witness fwd rev = fwd) := by
  have htol := tol_nonneg
  unfold pick_symmetric_witness
  split_ifs with h1 h2
  · refine ⟨?_, fun hc => absurd h1 (not_le.mpr hc), fun _ => rfl⟩
    rcases le_total fwd.distance_m rev.distance_m with hle | hle
    · rw [max_eq_right hle]
      exact h1
    · rw [max_eq_left hle]
      simpa using htol
  · refine ⟨?_, fun _ => ?_, fun hc => absurd hc h1⟩
    · rw [max_eq_left (le_of_lt h2)]
      simpa using htol
    · rw [max_eq_left (le_of_lt h2)]
  · refine ⟨?_, fun _ => ?_, fun hc => absurd hc h1⟩
    · rw [max_eq_right (le_of_not_lt h2)]
      simpa using htol
    · rw [max_eq_right (le_of_not_lt h2)]

/-- C5: in symmetric mode a successful result's distance is the distance of
pick_symmetric_witness applied to the two directed results; it is within the
1e-12 tolerance of the maximum of the two directed distances, it equals that
maximum exactly when the two differ by more than the tolerance, and when they
differ by at most the tolerance the forward result is returned, including its
witness when one was requested. -/
theorem hausdorff_symmetric_spec (K : GeodesicKernel)
    (nnOrder : Point → List PolylineSample → List PolylineSample)
    (a b : List (List Point)) (options : PolylineHausdorffOptions)
    (res : PolylineHausdorffResult)
    (hsym : options.symmetric = true)
    (hok : hausdorff_polyline K nnOrder a b options = .ok res) :
    ∃ ca cb fwd rev,
      hausdorff_directed_polyline K.dist nnOrder (enumerate_samples ca)
        (enumerate_samples cb) = .ok fwd ∧
      hausdorff_directed_polyline K.dist nnOrder (enumerate_samples cb)
        (enumerate_samples ca) = .ok rev ∧
      (∃ sa sb, densify_multiline K a options.densification_options = .ok sa ∧
        densify_multiline K b options.densification_options = .ok sb ∧
        clip_if_needed sa options.bounding_box = .ok ca ∧
        clip_if_needed sb options.bounding_box = .ok cb) ∧
      res.distance.meters = (pick_symmetric_witness fwd rev).distance_m ∧
      |res.distance.meters - max fwd.distance_m rev.distance_m| ≤
        WITNESS_DISTANCE_TOLERANCE_M ∧
      (WITNESS_DISTANCE_TOLERANCE_M < |fwd.distance_m - rev.distance_m| →
        res.distance.meters = max fwd.distance_m rev.distance_m) ∧
      (|fwd.distance_m - rev.distance_m| ≤ WITNESS_DISTANCE_TOLERANCE_M →
        pick_symmetric_witness fwd rev = fwd ∧
        (options.return_witness = true →
          res.witness = some (map_directed_witness fwd))) := by
  obtain ⟨ca, cb, fwd, rev, h5, h6, hchain, hdist, hwit⟩ :=
    hausdorff_polyline_ok_symmetric_inv K nnOrder a b options res hsym hok
  obtain ⟨hp1, hp2, hp3⟩ := pick_symmetric_props fwd rev
  have hmeters : res.distance.meters = (pick_symmetric_witness fwd rev).distance_m := by
    rw [hdist]
  refine ⟨ca, cb, fwd, rev, h5, h6, hchain, hmeters, ?_, ?_, ?_⟩
  · rw [hmeters]; exact hp1
  · intro hgt; rw [hmeters]; exact hp2 hgt
  · intro hle
    refine ⟨hp3 hle, fun hret => ?_⟩
    rw [hwit, hret]
    simp only [if_true]
    rw [hp3 hle]

/-- Witness for C5 on a concrete symmetric evaluation. -/
theorem hausdorff_symmetric_spec_witness :
    symOptions.symmetric = true ∧
    hausdorff_polyline unitKernel idOrder symA symB symOptions = .ok symRes ∧
    (∃ ca cb fwd rev,
      hausdorff_directed_polyline unitKernel.dist idOrder (enumerate_samples ca)
        (enumerate_samples cb) = .ok fwd ∧
      hausdorff_directed_polyline unitKernel.dist idOrder (enumerate_samples cb)
        (enumerate_samples ca) = .ok rev ∧
      (∃ sa sb,
        densify_multiline unitKernel symA symOptions.densification_options = .ok sa ∧
        densify_multiline unitKernel symB symOptions.densification_options = .ok sb ∧
        clip_if_needed sa symOptions.bounding_box = .ok ca ∧
        clip_if_needed sb symOptions.bounding_box = .ok cb) ∧
      symRes.distance.meters = (pick_symmetric_witness fwd rev).distance_m ∧
      |symRes.distance.meters - max fwd.distance_m rev.distance_m| ≤
        WITNESS_DISTANCE_TOLERANCE_M ∧
      (WITNESS_DISTANCE_TOLERANCE_M < |fwd.distance_m - rev.distance_m| →
        symRes.distance.meters = max fwd.distance_m rev.distance_m) ∧
      (|fwd.distance_m - rev.distance_m| ≤ WITNESS_DISTANCE_TOLERANCE_M →
        pick_symmetric_witness fwd rev = fwd ∧
        (symOptions.return_witness = true →
          symRes.witness = some (map_directed_witness fwd)))) := by
  have h : hausdorff_polyline unitKernel idOrder symA symB symOptions = .ok symRes := by
    decide
  exact ⟨rfl, h,
    hausdorff_symmetric_spec unitKernel idOrder symA symB symOptions symRes rfl h⟩

lemma tol_pos : (0 : ℚ) < WITNESS_DISTANCE_TOLERANCE_M := by
  unfold WITNESS_DISTANCE_TOLERANCE_M
  positivity

lemma tgt_lt_iff (w₁ w₂ : DirectedPolylineWitness) :
    tgt_lt w₁ w₂ ↔ w₁.distance_m < w₂.distance_m ∨
      (w₁.distance_m = w₂.distance_m ∧
        (w₁.target.part_index < w₂.target.part_index ∨
          (w₁.target.part_index = w₂.target.part_index ∧
            w₁.target.vertex_index < w₂.target.vertex_index))) := by
  unfold tgt_lt tgt_key
  simp only [Prod.Lex.lt_iff]

lemma prefers_target_exact (cur cand : DirectedPolylineWitness)
    (hsep : eps_separated cand.distance_m cur.distance_m) :
    (prefers_target cur cand = true) ↔ tgt_lt cand cur := by
  have htol := tol_pos
  rw [tgt_lt_iff]
  simp only [prefers_target, Bool.or_eq_true, Bool.and_eq_true, decide_eq_true_eq]
  rcases hsep with heq | hgt
  · constructor
    · rintro (h | ⟨-, h⟩)
      · exfalso; rw [heq] at h; linarith
      · exact Or.inr ⟨heq, h⟩
    · rintro (h | ⟨-, h⟩)
      · exfalso; rw [heq] at h; exact lt_irrefl _ h
      · refine Or.inr ⟨?_, h⟩
        rw [heq]
        simp
        linarith
  · rcases lt_trichotomy cand.distance_m cur.distance_m with hlt | heq2 | hgt2
    · have habs : |cand.distance_m - cur.distance_m| = cur.distance_m - cand.distance_m := by
        rw [abs_of_neg (by linarith)]
        ring
      rw [habs] at hgt
      constructor
      · intro _; exact Or.inl hlt
      · intro _; exact Or.inl (by linarith)
    · exfalso
      rw [heq2] at hgt
      simp at hgt
      linarith
    · have habs : |cand.distance_m - cur.distance_m| = cand.distance_m - cur.distance_m := by
        rw [abs_of_pos (by linarith)]
      rw [habs] at hgt
      constructor
      · rintro (h | ⟨h, -⟩)
        · exfalso; linarith
        · exfalso; linarith
      · rintro (h | ⟨h, -⟩)
        · exfalso; linarith
        · exfalso; rw [h] at hgt2; exact lt_irrefl _ hgt2

lemma prefers_worse_exact (cur cand : DirectedPolylineWitness)
    (hsep : eps_separated cand.distance_m cur.distance_m) :
    (prefers_worse_witness cur cand = true) ↔
      (cur.distance_m < cand.distance_m ∨
        (cand.distance_m = cur.distance_m ∧
          (cand.source.part_index < cur.source.part_index ∨
            (cand.source.part_index = cur.source.part_index ∧
              (cand.source.vertex_index < cur.source.vertex_index ∨
                (cand.source.vertex_index = cur.source.vertex_index ∧
                  (cand.target.part_index < cur.target.part_index ∨
                    (cand.target.part_index = cur.target.part_index ∧
                      cand.target.vertex_index < cur.target.vertex_index)))))))) := by
  have htol := tol_pos
  simp only [prefers_worse_witness, Bool.or_eq_true, Bool.and_eq_true, decide_eq_true_eq]
  rcases hsep with heq | hgt
  · constructor
    · rintro (h | ⟨-, h⟩)
      · exfalso; rw [heq] at h; linarith
      · exact Or.inr ⟨heq, h⟩
    · rintro (h | ⟨-, h⟩)
      · exfalso; rw [heq] at h; exact lt_irrefl _ h
      · refine Or.inr ⟨?_, h⟩
        rw [heq]
        simp
        linarith
  · rcases lt_trichotomy cand.distance_m cur.distance_m with hlt | heq2 | hgt2
    · have habs : |cand.distance_m - cur.distance_m| = cur.distance_m - cand.distance_m := by
        rw [abs_of_neg (by linarith)]
        ring
      rw [habs] at hgt
      constructor
      · rintro (h | ⟨h, -⟩)
        · exfalso; linarith
        · exfalso; linarith
      · rintro (h | ⟨h, -⟩)
        · exfalso; linarith
        · exfalso; rw [h] at hlt; exact lt_irrefl _ hlt
    · exfalso
      rw [heq2] at hgt
      simp at hgt
      linarith
    · have habs : |cand.distance_m - cur.distance_m| = cand.distance_m - cur.distance_m := by
        rw [abs_of_pos (by linarith)]
      rw [habs] at hgt
      constructor
      · intro _; exact Or.inl hgt2
      · intro _; exact Or.inl (by linarith)

lemma naive_fold_eq_exact (dist : Point → Point → ℚ) (o : PolylineSample)
    (C : List PolylineSample)
    (hsep : ∀ c₁ ∈ C, ∀ c₂ ∈ C,
      eps_separated (dist o.point c₁.point) (dist o.point c₂.point)) :
    ∀ (l : List PolylineSample), (∀ c ∈ l, c ∈ C) →
      ∀ (acc : Option DirectedPolylineWitness),
        (acc = none ∨ ∃ c ∈ C, acc = some (directed_witness dist o c)) →
        List.foldl (naive_nearest_step dist o) acc l =
          List.foldl (exact_nearest_step dist o) acc l := by
  intro l
  induction l with
  | nil => intro _ acc _; rfl
  | cons c rest ih =>
    intro hsub acc hacc
    rw [List.foldl_cons, List.foldl_cons]
    have hstep : naive_nearest_step dist o acc c = exact_nearest_step dist o acc c := by
      rcases hacc with rfl | ⟨c₀, hc₀, rfl⟩
      · rfl
      · unfold naive_nearest_step exact_nearest_step
        dsimp only
        have hs := hsep c (hsub c (by simp)) c₀ hc₀
        have hiff := prefers_target_exact (directed_witness dist o c₀)
          (directed_witness dist o c) hs
        by_cases hp : tgt_lt (directed_witness dist o c) (directed_witness dist o c₀)
        · rw [if_pos (hiff.mpr hp), if_pos hp]
        · rw [if_neg (fun hcontra => hp (hiff.mp hcontra)), if_neg hp]
    rw [hstep]
    refine ih (fun c' hc' => hsub c' (by simp [hc'])) _ ?_
    rcases hacc with rfl | ⟨c₀, hc₀, rfl⟩
    · exact Or.inr ⟨c, hsub c (by simp), rfl⟩
    · unfold exact_nearest_step
      dsimp only
      split_ifs
      · exact Or.inr ⟨c, hsub c (by simp), rfl⟩
      · exact Or.inr ⟨c₀, hc₀, rfl⟩

lemma exact_fold_min (dist : Point → Point → ℚ) (o : PolylineSample) :
    ∀ (l : List PolylineSample) (cur : DirectedPolylineWitness),
      ∃ w, List.foldl (exact_nearest_step dist o) (some cur) l = some w ∧
        (w = cur ∨ ∃ c ∈ l, w = directed_witness dist o c) ∧
        tgt_key w ≤ tgt_key cur ∧
        (∀ c ∈ l, tgt_key w ≤ tgt_key (directed_witness dist o c)) := by
  intro l
  induction l with
  | nil => intro cur; exact ⟨cur, rfl, Or.inl rfl, le_refl _, by simp⟩
  | cons c rest ih =>
    intro cur
    rw [List.foldl_cons]
    unfold exact_nearest_step
    dsimp only
    split_ifs with hp
    · obtain ⟨w, h1, h2, h3, h4⟩ := ih (directed_witness dist o c)
      refine ⟨w, h1, ?_, ?_, ?_⟩
      · rcases h2 with rfl | ⟨c', hc', rfl⟩
        · exact Or.inr ⟨c, by simp, rfl⟩
        · exact Or.inr ⟨c', by simp [hc'], rfl⟩
      · exact le_trans h3 (le_of_lt (show tgt_key _ < tgt_key _ from hp))
      · intro c' hc'
        rcases List.mem_cons.mp hc' with rfl | hc'
        · exact h3
        · exact h4 c' hc'
    · obtain ⟨w, h1, h2, h3, h4⟩ := ih cur
      refine ⟨w, h1, ?_, h3, ?_⟩
      · rcases h2 with rfl | ⟨c', hc', rfl⟩
        · exact Or.inl rfl
        · exact Or.inr ⟨c', by simp [hc'], rfl⟩
      · intro c' hc'
        rcases List.mem_cons.mp hc' with rfl | hc'
        · exact le_trans h3 (le_of_not_lt (show ¬ tgt_key _ < tgt_key _ from hp))
        · exact h4 c' hc'

lemma indexed_scan_min (dist : Point → Point → ℚ) (o : PolylineSample) (m : ℚ) :
    ∀ (l : List PolylineSample) (nearest : DirectedPolylineWitness),
      nearest.distance_m = m →
      (∀ c ∈ l, m ≤ dist o.point c.point) →
      (∀ c ∈ l, eps_separated (dist o.point c.point) m) →
      List.Pairwise (fun a b => dist o.point a.point ≤ dist o.point b.point) l →
      ∃ r, indexed_scan dist o nearest l = r ∧
        r.distance_m = m ∧
        (r = nearest ∨ ∃ c ∈ l, r = directed_witness dist o c) ∧
        tgt_key r ≤ tgt_key nearest ∧
        (∀ c ∈ l, tgt_key r ≤ tgt_key (directed_witness dist o c)) := by
  intro l
  induction l with
  | nil =>
    intro nearest hm _ _ _
    exact ⟨nearest, rfl, hm, Or.inl rfl, le_refl _, by simp⟩
  | cons c rest ih =>
    intro nearest hm hmin hsep hsort
    have hdc : m ≤ dist o.point c.point := hmin c (by simp)
    have htol := tol_pos
    unfold indexed_scan
    simp only [directed_witness] at *
    rw [hm]
    have hb1 : ¬ (dist o.point c.point + WITNESS_DISTANCE_TOLERANCE_M < m) := by linarith
    rw [if_neg hb1]
    rcases hsep c (by simp) with heq | hgt
    · have hb2 : |dist o.point c.point - m| ≤ WITNESS_DISTANCE_TOLERANCE_M := by
        rw [heq]
        simp
        linarith
      rw [if_pos hb2]
      have hsepwn : eps_separated
          (directed_witness dist o c).distance_m nearest.distance_m := by
        unfold directed_witness
        dsimp only
        rw [hm, heq]
        exact Or.inl rfl
      have hiff := prefers_target_exact nearest (directed_witness dist o c) hsepwn
      by_cases hb : prefers_target nearest (directed_witness dist o c) = true
      · simp only [directed_witness] at hb
        rw [if_pos hb]
        obtain ⟨r, h1, h2, h3, h4, h5⟩ := ih (directed_witness dist o c) heq
          (fun c' hc' => hmin c' (by simp [hc']))
          (fun c' hc' => hsep c' (by simp [hc']))
          (List.Pairwise.sublist (List.sublist_cons_self c rest) hsort)
        simp only [directed_witness] at h1
        refine ⟨r, h1, h2, ?_, ?_, ?_⟩
        · rcases h3 with rfl | ⟨c', hc', rfl⟩
          · exact Or.inr ⟨c, by simp, rfl⟩
          · exact Or.inr ⟨c', by simp [hc'], rfl⟩
        · refine le_trans h4 (le_of_lt ?_)
          have := hiff.mp (by simpa only [directed_witness] using hb)
          exact this
        · intro c' hc'
          rcases List.mem_cons.mp hc' with rfl | hc'
          · exact h4
          · exact h5 c' hc'
      · simp only [directed_witness] at hb
        rw [if_neg hb]
        obtain ⟨r, h1, h2, h3, h4, h5⟩ := ih nearest hm
          (fun c' hc' => hmin c' (by simp [hc']))
          (fun c' hc' => hsep c' (by simp [hc']))
          (List.Pairwise.sublist (List.sublist_cons_self c rest) hsort)
        refine ⟨r, h1, h2, ?_, h4, ?_⟩
        · rcases h3 with rfl | ⟨c', hc', rfl⟩
          · exact Or.inl rfl
          · exact Or.inr ⟨c', by simp [hc'], rfl⟩
        · intro c' hc'
          rcases List.mem_cons.mp hc' with rfl | hc'
          · refine le_trans h4 (le_of_not_lt ?_)
            intro hcontra
            exact hb (hiff.mpr hcontra)
          · exact h5 c' hc'
    · have habs : |dist o.point c.point - m| = dist o.point c.point - m := by
        rcases eq_or_lt_of_le hdc with heq2 | hlt2
        · rw [← heq2]; simp
        · rw [abs_of_pos (by linarith)]
      rw [habs] at hgt
      have hb2 : ¬ (|dist o.point c.point - m| ≤ WITNESS_DISTANCE_TOLERANCE_M) := by
        rw [habs]
        linarith
      rw [if_neg hb2, if_pos (by linarith)]
      have hkey_lt : ∀ v : ℚ, m < v → ∀ t₁ t₂,
          (toLex (m, t₁) : ℚ ×ₗ (ℕ ×ₗ ℕ)) < toLex (v, t₂) := by
        intro v hv t₁ t₂
        exact (Prod.Lex.lt_iff _ _).mpr (Or.inl hv)
      refine ⟨nearest, rfl, hm, Or.inl rfl, le_refl _, ?_⟩
      intro c' hc'
      have hmc' : m + WITNESS_DISTANCE_TOLERANCE_M < dist o.point c'.point := by
        rcases List.mem_cons.mp hc' with rfl | hc'
        · linarith
        · have := List.rel_of_pairwise_cons hsort hc'
          linarith
      refine le_of_lt ?_
      show tgt_key nearest < tgt_key (directed_witness dist o c')
      unfold tgt_key directed_witness
      dsimp only
      rw [hm]
      exact hkey_lt _ (by linarith) _ _

lemma tgt_key_eq_inv (dist : Point → Point → ℚ) (o : PolylineSample)
    (c₁ c₂ : PolylineSample)
    (h : tgt_key (directed_witness dist o c₁) = tgt_key (directed_witness dist o c₂)) :
    c₁.part_index = c₂.part_index ∧ c₁.vertex_index = c₂.vertex_index := by
  unfold tgt_key directed_witness at h
  dsimp only at h
  have h1 := toLex_inj.mp h
  have h2 := congrArg Prod.snd h1
  simp only at h2
  have h3 := toLex_inj.mp h2
  exact ⟨congrArg Prod.fst h3, congrArg Prod.snd h3⟩

lemma indexed_origin_eq (dist : Point → Point → ℚ) (o : PolylineSample)
    (cands order : List PolylineSample)
    (hne : cands ≠ [])
    (hperm : order.Perm cands)
    (hsort : order.Pairwise (fun a b => dist o.point a.point ≤ dist o.point b.point))
    (hsep : ∀ c₁ ∈ cands, ∀ c₂ ∈ cands,
      eps_separated (dist o.point c₁.point) (dist o.point c₂.point))
    (hidx : ∀ c₁ ∈ cands, ∀ c₂ ∈ cands, c₁.part_index = c₂.part_index →
      c₁.vertex_index = c₂.vertex_index → c₁ = c₂) :
    ∃ f more, order = f :: more ∧
      naive_nearest dist o cands =
        some (indexed_scan dist o (directed_witness dist o f) more) := by
  cases horder : order with
  | nil =>
    exfalso
    rw [horder] at hperm
    exact hne hperm.symm.eq_nil
  | cons f more =>
  rw [horder] at hperm hsort
  have hfmem : f ∈ cands := hperm.subset (by simp)
  have hsubmore : ∀ c ∈ more, c ∈ cands := fun c hc => hperm.subset (by simp [hc])
  have hminall : ∀ c ∈ cands, dist o.point f.point ≤ dist o.point c.point := by
    intro c hc
    rcases List.mem_cons.mp (hperm.symm.subset hc) with rfl | hc'
    · exact le_refl _
    · exact List.rel_of_pairwise_cons hsort hc'
  obtain ⟨r, hreq, hrd, hrmem, hrle, hrmin⟩ :=
    indexed_scan_min dist o (dist o.point f.point) more (directed_witness dist o f)
      rfl
      (fun c hc => hminall c (hsubmore c hc))
      (fun c hc => hsep c (hsubmore c hc) f hfmem)
      ((List.pairwise_cons.mp hsort).2)
  have hrwit : ∃ cr ∈ cands, r = directed_witness dist o cr := by
    rcases hrmem with rfl | ⟨c, hc, rfl⟩
    · exact ⟨f, hfmem, rfl⟩
    · exact ⟨c, hsubmore c hc, rfl⟩
  have hrminall : ∀ c ∈ cands, tgt_key r ≤ tgt_key (directed_witness dist o c) := by
    intro c hc
    rcases List.mem_cons.mp (hperm.symm.subset hc) with rfl | hc'
    · exact hrle
    · exact hrmin c hc'
  cases hcands : cands with
  | nil => exact absurd hcands hne
  | cons c0 crest =>
  rw [hcands] at hsep hidx
  have hnaive1 : naive_nearest dist o (c0 :: crest) =
      List.foldl (naive_nearest_step dist o) (some (directed_witness dist o c0)) crest := by
    unfold naive_nearest
    rw [List.foldl_cons]
    rfl
  have hnaive2 : List.foldl (naive_nearest_step dist o)
      (some (directed_witness dist o c0)) crest =
      List.foldl (exact_nearest_step dist o) (some (directed_witness dist o c0)) crest :=
    naive_fold_eq_exact dist o (c0 :: crest) hsep crest
      (fun c hc => by simp [hc]) _ (Or.inr ⟨c0, by simp, rfl⟩)
  obtain ⟨w, hweq, hwmem, hwle, hwmin⟩ := exact_fold_min dist o crest (directed_witness dist o c0)
  have hwwit : ∃ cw ∈ c0 :: crest, w = directed_witness dist o cw := by
    rcases hwmem with rfl | ⟨c, hc, rfl⟩
    · exact ⟨c0, by simp, rfl⟩
    · exact ⟨c, by simp [hc], rfl⟩
  have hwminall : ∀ c ∈ c0 :: crest, tgt_key w ≤ tgt_key (directed_witness dist o c) := by
    intro c hc
    rcases List.mem_cons.mp hc with rfl | hc'
    · exact hwle
    · exact hwmin c hc'
  obtain ⟨cr, hcr, hr_eq⟩ := hrwit
  obtain ⟨cw, hcw, hw_eq⟩ := hwwit
  rw [hcands] at hcr
  have hkey1 : tgt_key r ≤ tgt_key w := by
    rw [hw_eq]
    exact hrminall cw (by rw [hcands]; exact hcw)
  have hkey2 : tgt_key w ≤ tgt_key r := by
    rw [hr_eq]
    exact hwminall cr hcr
  have hkeyeq : tgt_key w = tgt_key r := le_antisymm hkey2 hkey1
  rw [hr_eq, hw_eq] at hkeyeq
  obtain ⟨hpi, hvi⟩ := tgt_key_eq_inv dist o cw cr hkeyeq
  have hcwcr : cw = cr := hidx cw hcw cr hcr hpi hvi
  refine ⟨f, more, rfl, ?_⟩
  rw [hnaive1, hnaive2, hweq, hreq]
  rw [hw_eq, hcwcr, ← hr_eq]

lemma indexed_best_eq_naive_fold (dist : Point → Point → ℚ)
    (nnOrder : Point → List PolylineSample → List PolylineSample)
    (cands : List PolylineSample) (hne : cands ≠ [])
    (hidx : ∀ c₁ ∈ cands, ∀ c₂ ∈ cands, c₁.part_index = c₂.part_index →
      c₁.vertex_index = c₂.vertex_index → c₁ = c₂) :
    ∀ (origins : List PolylineSample),
      (∀ o ∈ origins, (nnOrder o.point cands).Perm cands) →
      (∀ o ∈ origins, (nnOrder o.point cands).Pairwise
        (fun a b => dist o.point a.point ≤ dist o.point b.point)) →
      (∀ o ∈ origins, ∀ c₁ ∈ cands, ∀ c₂ ∈ cands,
        eps_separated (dist o.point c₁.point) (dist o.point c₂.point)) →
      ∀ best, indexed_best dist nnOrder cands best origins =
        .ok (origins.foldl
          (fun best origin =>
            match naive_nearest dist origin cands with
            | some nearest_witness => worst_step best nearest_witness
            | none => best) best) := by
  intro origins
  induction origins with
  | nil => intro _ _ _ best; rfl
  | cons o rest ih =>
    intro hperm hsort hsep best
    obtain ⟨f, more, heq, hnaive⟩ :=
      indexed_origin_eq dist o cands (nnOrder o.point cands) hne
        (hperm o (by simp)) (hsort o (by simp)) (hsep o (by simp)) hidx
    rw [List.foldl_cons]
    simp only [hnaive]
    have hlhs : indexed_best dist nnOrder cands best (o :: rest) =
        indexed_best dist nnOrder cands
          (worst_step best (indexed_scan dist o (directed_witness dist o f) more)) rest := by
      rw [indexed_best, heq]
    rw [hlhs]
    exact ih (fun o' h => hperm o' (by simp [h]))
      (fun o' h => hsort o' (by simp [h]))
      (fun o' h => hsep o' (by simp [h])) _

/-- C1: under the hypotheses that make the spatial index model faithful
(`nnOrder` enumerates exactly the candidate set in non-decreasing query
distance) and that every two origin-candidate distances for a common origin
are either exactly equal or separated by more than the 1e-12 m witness
tolerance (and sample indices identify samples), the indexed directed
evaluation agrees exactly — distance and full witness — with the brute-force
evaluation.  The separation hypothesis is necessary: see the counterexample. -/
theorem hausdorff_indexed_eq_naive (dist : Point → Point → ℚ)
    (nnOrder : Point → List PolylineSample → List PolylineSample)
    (origins candidates : List PolylineSample)
    (hne : candidates ≠ [])
    (hperm : ∀ o ∈ origins, (nnOrder o.point candidates).Perm candidates)
    (hsort : ∀ o ∈ origins, (nnOrder o.point candidates).Pairwise
      (fun a b => dist o.point a.point ≤ dist o.point b.point))
    (hsep : ∀ o ∈ origins, ∀ c₁ ∈ candidates, ∀ c₂ ∈ candidates,
      eps_separated (dist o.point c₁.point) (dist o.point c₂.point))
    (hidx : ∀ c₁ ∈ candidates, ∀ c₂ ∈ candidates, c₁.part_index = c₂.part_index →
      c₁.vertex_index = c₂.vertex_index → c₁ = c₂) :
    hausdorff_directed_polyline_indexed dist nnOrder origins candidates =
      hausdorff_directed_polyline_naive dist origins candidates := by
  unfold hausdorff_directed_polyline_indexed hausdorff_directed_polyline_naive
  rw [indexed_best_eq_naive_fold dist nnOrder candidates hne hidx origins
    hperm hsort hsep none]
  rfl

/-- C1 counterexample: with a faithful index model (the enumeration is a
permutation of the candidates sorted by distance to the origin), brute force
returns the distance-0 candidate at vertex 2 while the indexed path walks a
chain of sub-tolerance near-ties back to vertex 0 at distance 17e-13, so the
two strategies return different distances and different witnesses. -/
theorem hausdorff_indexed_eq_naive_cex :
    (cexOrder cexOrigin.point cexCands).Perm cexCands ∧
    (cexOrder cexOrigin.point cexCands).Pairwise
      (fun a b => cexDist cexOrigin.point a.point ≤ cexDist cexOrigin.point b.point) ∧
    hausdorff_directed_polyline_naive cexDist [cexOrigin] cexCands =
      .ok ⟨0, cexOrigin, ⟨⟨0, 0⟩, 0, 2⟩⟩ ∧
    hausdorff_directed_polyline_indexed cexDist cexOrder [cexOrigin] cexCands =
      .ok ⟨17 / 10 ^ 13, cexOrigin, ⟨⟨0, 17⟩, 0, 0⟩⟩ ∧
    hausdorff_directed_polyline_indexed cexDist cexOrder [cexOrigin] cexCands ≠
      hausdorff_directed_polyline_naive cexDist [cexOrigin] cexCands :=
  ⟨by decide, by decide, by decide, by decide, by decide⟩

/-- C1 witness: on a concrete well-separated instance the equivalence theorem
applies and the two strategies agree exactly. -/
theorem hausdorff_indexed_eq_naive_witness :
    hausdorff_directed_polyline_indexed sepDist idOrder [cexOrigin] sepCands =
      hausdorff_directed_polyline_naive sepDist [cexOrigin] sepCands :=
  hausdorff_indexed_eq_naive sepDist idOrder [cexOrigin] sepCands
    (by decide) (by decide) (by decide) (by decide) (by decide)

lemma pairwise_idx_inj : ∀ (A : List PolylineSample), A.Pairwise idx_lt →
    ∀ c₁ ∈ A, ∀ c₂ ∈ A, c₁.part_index = c₂.part_index →
      c₁.vertex_index = c₂.vertex_index → c₁ = c₂ := by
  intro A
  induction A with
  | nil => intro _ c₁ h; exact absurd h (List.not_mem_nil c₁)
  | cons a l ih =>
    intro hpw c₁ h₁ c₂ h₂ hp hv
    have hhead := (List.pairwise_cons.mp hpw).1
    have htail := (List.pairwise_cons.mp hpw).2
    rcases List.mem_cons.mp h₁ with rfl | h₁' <;> rcases List.mem_cons.mp h₂ with rfl | h₂'
    · rfl
    · exfalso
      have h := hhead c₂ h₂'
      unfold idx_lt at h
      rcases h with h | ⟨hp', hv'⟩ <;> omega
    · exfalso
      have h := hhead c₁ h₁'
      unfold idx_lt at h
      rcases h with h | ⟨hp', hv'⟩ <;> omega
    · exact ih htail c₁ h₁' c₂ h₂' hp hv

lemma naive_scan_sorted (dist : Point → Point → ℚ) (o : PolylineSample) :
    ∀ (l : List PolylineSample) (w : DirectedPolylineWitness),
      w.source = o →
      (∀ c ∈ l, idx_lt w.target c) →
      l.Pairwise idx_lt →
      ∃ w', List.foldl (naive_nearest_step dist o) (some w) l = some w' ∧
        w'.source = o ∧ w'.distance_m ≤ w.distance_m ∧
        ∀ c ∈ l, w'.distance_m ≤ dist o.point c.point + WITNESS_DISTANCE_TOLERANCE_M := by
  intro l
  induction l with
  | nil =>
    intro w hsrc _ _
    exact ⟨w, rfl, hsrc, le_refl _, by simp⟩
  | cons c rest ih =>
    intro w hsrc hidx hpw
    rw [List.foldl_cons]
    have hstep : naive_nearest_step dist o (some w) c =
        if prefers_target w (directed_witness dist o c) then
          some (directed_witness dist o c) else some w := rfl
    have hidxc : idx_lt w.target c := hidx c (by simp)
    unfold idx_lt at hidxc
    by_cases hp : prefers_target w (directed_witness dist o c) = true
    · have hidxf : (decide (c.part_index < w.target.part_index) ||
          (decide (c.part_index = w.target.part_index) &&
            decide (c.vertex_index < w.target.vertex_index))) = false := by
        rcases hidxc with h | ⟨h1, h2⟩
        · rw [decide_eq_false (by omega : ¬ c.part_index < w.target.part_index),
            decide_eq_false (by omega : ¬ c.part_index = w.target.part_index)]
          simp
        · rw [decide_eq_false (by omega : ¬ c.part_index < w.target.part_index),
            decide_eq_false (by omega : ¬ c.vertex_index < w.target.vertex_index)]
          simp
      have hp' : (decide (dist o.point c.point + WITNESS_DISTANCE_TOLERANCE_M < w.distance_m) ||
          (decide (|dist o.point c.point - w.distance_m| ≤ WITNESS_DISTANCE_TOLERANCE_M) &&
            (decide (c.part_index < w.target.part_index) ||
              (decide (c.part_index = w.target.part_index) &&
                decide (c.vertex_index < w.target.vertex_index))))) = true := hp
      rw [hidxf, Bool.and_false, Bool.or_false] at hp'
      have hlt' : dist o.point c.point + WITNESS_DISTANCE_TOLERANCE_M < w.distance_m :=
        of_decide_eq_true hp'
      have htol := tol_pos
      obtain ⟨w', hfold, hsrc', hmono, hbound⟩ := ih (directed_witness dist o c) rfl
        (fun c' hc' => List.rel_of_pairwise_cons hpw hc')
        ((List.pairwise_cons.mp hpw).2)
      refine ⟨w', ?_, hsrc', ?_, ?_⟩
      · rw [hstep, if_pos hp]
        exact hfold
      · calc w'.distance_m ≤ (directed_witness dist o c).distance_m := hmono
          _ = dist o.point c.point := rfl
          _ ≤ w.distance_m := le_of_lt (by linarith)
      · intro c' hc'
        rcases List.mem_cons.mp hc' with rfl | hc''
        · have h : w'.distance_m ≤ dist o.point c'.point := hmono
          linarith
        · exact hbound c' hc''
    · have hpf : prefers_target w (directed_witness dist o c) = false := by
        cases hb : prefers_target w (directed_witness dist o c)
        · rfl
        · exact absurd hb hp
      have hp' : (decide (dist o.point c.point + WITNESS_DISTANCE_TOLERANCE_M < w.distance_m) ||
          (decide (|dist o.point c.point - w.distance_m| ≤ WITNESS_DISTANCE_TOLERANCE_M) &&
            (decide (c.part_index < w.target.part_index) ||
              (decide (c.part_index = w.target.part_index) &&
                decide (c.vertex_index < w.target.vertex_index))))) = false := hpf
      have h1 : decide (dist o.point c.point + WITNESS_DISTANCE_TOLERANCE_M < w.distance_m)
          = false := (Bool.or_eq_false_iff.mp hp').1
      have hle : w.distance_m ≤ dist o.point c.point + WITNESS_DISTANCE_TOLERANCE_M := by
        have h2 := of_decide_eq_false h1
        linarith
      obtain ⟨w', hfold, hsrc', hmono, hbound⟩ := ih w hsrc
        (fun c' hc' => hidx c' (by simp [hc']))
        ((List.pairwise_cons.mp hpw).2)
      have hs2 : naive_nearest_step dist o (some w) c = some w := by
        rw [hstep, hpf]
        simp
      refine ⟨w', ?_, hsrc', hmono, ?_⟩
      · rw [hs2]
        exact hfold
      · intro c' hc'
        rcases List.mem_cons.mp hc' with rfl | hc''
        · exact le_trans hmono hle
        · exact hbound c' hc''

lemma naive_nearest_sorted_bound (dist : Point → Point → ℚ) (o c0 : PolylineSample)
    (crest : List PolylineSample) (hpw : (c0 :: crest).Pairwise idx_lt) :
    ∃ w, naive_nearest dist o (c0 :: crest) = some w ∧ w.source = o ∧
      w.distance_m ≤ dist o.point c0.point ∧
      ∀ c ∈ c0 :: crest, w.distance_m ≤ dist o.point c.point + WITNESS_DISTANCE_TOLERANCE_M := by
  unfold naive_nearest
  rw [List.foldl_cons]
  have h0 : naive_nearest_step dist o none c0 = some (directed_witness dist o c0) := rfl
  rw [h0]
  obtain ⟨w, hfold, hsrc, hmono, hbound⟩ :=
    naive_scan_sorted dist o crest (directed_witness dist o c0) rfl
      (fun c hc => List.rel_of_pairwise_cons hpw hc)
      ((List.pairwise_cons.mp hpw).2)
  have htol := tol_pos
  refine ⟨w, hfold, hsrc, hmono, ?_⟩
  intro c hc
  rcases List.mem_cons.mp hc with rfl | hc'
  · have h : w.distance_m ≤ dist o.point c.point := hmono
    linarith
  · exact hbound c hc'

lemma naive_stay (dist : Point → Point → ℚ) (o : PolylineSample) (w : DirectedPolylineWitness) :
    ∀ (l : List PolylineSample),
      (∀ c ∈ l, prefers_target w (directed_witness dist o c) = false) →
      List.foldl (naive_nearest_step dist o) (some w) l = some w := by
  intro l
  induction l with
  | nil => intro _; rfl
  | cons c rest ih =>
    intro h
    rw [List.foldl_cons]
    have hstep : naive_nearest_step dist o (some w) c = some w := by
      show (if prefers_target w (directed_witness dist o c) then
        some (directed_witness dist o c) else some w) = some w
      rw [h c (by simp)]
      simp
    rw [hstep]
    exact ih (fun c' hc' => h c' (by simp [hc']))

lemma naive_nearest_head_self (dist : Point → Point → ℚ) (a0 : PolylineSample)
    (rest : List PolylineSample)
    (hz : dist a0.point a0.point = 0)
    (hnn : ∀ c ∈ rest, 0 ≤ dist a0.point c.point)
    (hlt : ∀ c ∈ rest, idx_lt a0 c) :
    naive_nearest dist a0 (a0 :: rest) = some (directed_witness dist a0 a0) := by
  unfold naive_nearest
  rw [List.foldl_cons]
  have h0 : naive_nearest_step dist a0 none a0 = some (directed_witness dist a0 a0) := rfl
  rw [h0]
  apply naive_stay
  intro c hc
  have htol := tol_pos
  have hd := hnn c hc
  have h1 : decide (dist a0.point c.point + WITNESS_DISTANCE_TOLERANCE_M <
      dist a0.point a0.point) = false :=
    decide_eq_false (by rw [hz]; intro hcon; linarith)
  have hlt' := hlt c hc
  unfold idx_lt at hlt'
  have h2 : (decide (c.part_index < a0.part_index) ||
      (decide (c.part_index = a0.part_index) &&
        decide (c.vertex_index < a0.vertex_index))) = false := by
    rcases hlt' with h | ⟨hp, hv⟩
    · rw [decide_eq_false (by omega : ¬ c.part_index < a0.part_index),
        decide_eq_false (by omega : ¬ c.part_index = a0.part_index)]
      simp
    · rw [decide_eq_false (by omega : ¬ c.part_index < a0.part_index),
        decide_eq_false (by omega : ¬ c.vertex_index < a0.vertex_index)]
      simp
  show (decide (dist a0.point c.point + WITNESS_DISTANCE_TOLERANCE_M < dist a0.point a0.point) ||
    (decide (|dist a0.point c.point - dist a0.point a0.point| ≤ WITNESS_DISTANCE_TOLERANCE_M) &&
      (decide (c.part_index < a0.part_index) ||
        (decide (c.part_index = a0.part_index) &&
          decide (c.vertex_index < a0.vertex_index))))) = false
  rw [h1, Bool.false_or, h2, Bool.and_false]

lemma naive_self_fold (dist : Point → Point → ℚ) (a0 : PolylineSample)
    (rest : List PolylineSample)
    (hzero : ∀ s ∈ a0 :: rest, dist s.point s.point = 0)
    (hnonneg : ∀ s ∈ a0 :: rest, ∀ c ∈ a0 :: rest, 0 ≤ dist s.point c.point)
    (hpw : (a0 :: rest).Pairwise idx_lt) :
    List.foldl (fun best origin =>
        match naive_nearest dist origin (a0 :: rest) with
        | some nearest_witness => worst_step best nearest_witness
        | none => best) none (a0 :: rest) = some (directed_witness dist a0 a0) := by
  have hlt0 : ∀ c ∈ rest, idx_lt a0 c := fun c hc => List.rel_of_pairwise_cons hpw hc
  have h1 : naive_nearest dist a0 (a0 :: rest) = some (directed_witness dist a0 a0) :=
    naive_nearest_head_self dist a0 rest (hzero a0 (by simp))
      (fun c hc => hnonneg a0 (by simp) c (by simp [hc])) hlt0
  have hkeep : ∀ o ∈ rest, (match naive_nearest dist o (a0 :: rest) with
      | some nearest_witness => worst_step (some (directed_witness dist a0 a0)) nearest_witness
      | none => (some (directed_witness dist a0 a0)))
      = some (directed_witness dist a0 a0) := by
    intro o ho
    obtain ⟨w_o, hw_o, hsrc, hmono, hbound⟩ :=
      naive_nearest_sorted_bound dist o a0 rest hpw
    rw [hw_o]
    have htol := tol_pos
    have hd : w_o.distance_m ≤ WITNESS_DISTANCE_TOLERANCE_M := by
      have hb := hbound o (by simp [ho])
      rw [hzero o (by simp [ho])] at hb
      linarith
    have hA : decide (dist a0.point a0.point + WITNESS_DISTANCE_TOLERANCE_M <
        w_o.distance_m) = false :=
      decide_eq_false (by rw [hzero a0 (by simp)]; intro hcon; linarith)
    have hlt' := hlt0 o ho
    unfold idx_lt at hlt'
    have hfalse : prefers_worse_witness (directed_witness dist a0 a0) w_o = false := by
      show (decide (dist a0.point a0.point + WITNESS_DISTANCE_TOLERANCE_M < w_o.distance_m) ||
        (decide (|w_o.distance_m - dist a0.point a0.point| ≤ WITNESS_DISTANCE_TOLERANCE_M) &&
          (decide (w_o.source.part_index < a0.part_index) ||
            (decide (w_o.source.part_index = a0.part_index) &&
              (decide (w_o.source.vertex_index < a0.vertex_index) ||
                (decide (w_o.source.vertex_index = a0.vertex_index) &&
                  (decide (w_o.target.part_index < a0.part_index) ||
                    (decide (w_o.target.part_index = a0.part_index) &&
                      decide (w_o.target.vertex_index < a0.vertex_index))))))))) = false
      rw [hA, Bool.false_or, hsrc]
      rcases hlt' with h | ⟨hp, hv⟩
      · rw [decide_eq_false (by omega : ¬ o.part_index < a0.part_index),
          decide_eq_false (by omega : ¬ o.part_index = a0.part_index)]
        simp
      · rw [decide_eq_false (by omega : ¬ o.part_index < a0.part_index),
          decide_eq_false (by omega : ¬ o.vertex_index < a0.vertex_index),
          decide_eq_false (by omega : ¬ o.vertex_index = a0.vertex_index)]
        simp
    show (if prefers_worse_witness (directed_witness dist a0 a0) w_o then some w_o
      else some (directed_witness dist a0 a0)) = some (directed_witness dist a0 a0)
    rw [hfalse]
    simp
  rw [List.foldl_cons]
  simp only [h1]
  have hws : worst_step none (directed_witness dist a0 a0)
      = some (directed_witness dist a0 a0) := rfl
  rw [hws]
  suffices hgen : ∀ (l : List PolylineSample), (∀ o ∈ l, o ∈ rest) →
      List.foldl (fun best origin => match naive_nearest dist origin (a0 :: rest) with
        | some nearest_witness => worst_step best nearest_witness
        | none => best) (some (directed_witness dist a0 a0)) l
        = some (directed_witness dist a0 a0) by
    exact hgen rest (fun _ h => h)
  intro l
  induction l with
  | nil => intro _; rfl
  | cons o l ih =>
    intro hsub
    rw [List.foldl_cons]
    have hk := hkeep o (hsub o (by simp))
    rw [hk]
    exact ih (fun o' ho' => hsub o' (by simp [ho']))

/-- C8: for a non-empty enumerated sample set A with zero self-distances,
non-negative distances and strictly increasing (part, vertex) indices, the
brute-force directed evaluation of A against A returns distance exactly 0
(the first sample's self-witness); the indexed evaluation returns distance
exactly 0 as well provided additionally that the index enumeration is a
faithful sorted permutation and all origin-candidate distances per origin are
either equal or separated by more than the 1e-12 m tolerance.  Without the
separation hypothesis the indexed result can be nonzero: see the
counterexample. -/
theorem hausdorff_directed_self_spec (dist : Point → Point → ℚ)
    (nnOrder : Point → List PolylineSample → List PolylineSample)
    (A : List PolylineSample)
    (hne : A ≠ [])
    (hzero : ∀ s ∈ A, dist s.point s.point = 0)
    (hnonneg : ∀ s ∈ A, ∀ c ∈ A, 0 ≤ dist s.point c.point)
    (hpw : A.Pairwise idx_lt) :
    (∃ w, hausdorff_directed_polyline_naive dist A A = .ok w ∧ w.distance_m = 0) ∧
    ((∀ o ∈ A, (nnOrder o.point A).Perm A) →
      (∀ o ∈ A, (nnOrder o.point A).Pairwise
        (fun a b => dist o.point a.point ≤ dist o.point b.point)) →
      (∀ o ∈ A, ∀ c₁ ∈ A, ∀ c₂ ∈ A,
        eps_separated (dist o.point c₁.point) (dist o.point c₂.point)) →
      ∃ w, hausdorff_directed_polyline_indexed dist nnOrder A A = .ok w ∧
        w.distance_m = 0) := by
  cases A with
  | nil => exact absurd rfl hne
  | cons a0 rest =>
  have hfold := naive_self_fold dist a0 rest hzero hnonneg hpw
  constructor
  · refine ⟨directed_witness dist a0 a0, ?_, ?_⟩
    · unfold hausdorff_directed_polyline_naive
      rw [hfold]
    · show dist a0.point a0.point = 0
      exact hzero a0 (by simp)
  · intro hperm hsort hsep
    refine ⟨directed_witness dist a0 a0, ?_, ?_⟩
    · unfold hausdorff_directed_polyline_indexed
      rw [indexed_best_eq_naive_fold dist nnOrder (a0 :: rest) (by simp)
        (pairwise_idx_inj (a0 :: rest) hpw) (a0 :: rest) hperm hsort hsep none]
      rw [hfold]
      rfl
    · show dist a0.point a0.point = 0
      exact hzero a0 (by simp)

/-- C8 counterexample: over selfA, with a faithful sorted index enumeration
and exact zero self-distances, the indexed directed evaluation of the set
against itself returns distance 17e-13 (witness from sample 2 to sample 0)
instead of 0: per-origin scans drift along sub-tolerance near-ties and the
worst-origin fold then sees a distance beyond the tolerance. -/
theorem hausdorff_directed_self_cex :
    (∀ o ∈ selfA, (selfOrder3 o.point selfA).Perm selfA) ∧
    (∀ o ∈ selfA, (selfOrder3 o.point selfA).Pairwise
      (fun a b => cexDist o.point a.point ≤ cexDist o.point b.point)) ∧
    (∀ s ∈ selfA, cexDist s.point s.point = 0) ∧
    (∀ s ∈ selfA, ∀ c ∈ selfA, 0 ≤ cexDist s.point c.point) ∧
    selfA.Pairwise idx_lt ∧
    hausdorff_directed_polyline_indexed cexDist selfOrder3 selfA selfA =
      .ok ⟨17 / 10 ^ 13, ⟨⟨0, 17⟩, 0, 2⟩, ⟨⟨0, 0⟩, 0, 0⟩⟩ :=
  ⟨by decide, by decide, by decide, by decide, by decide, by decide⟩

/-- C8 witness: on the concrete well-separated set selfA2 both the naive and
the indexed evaluation of the set against itself return distance exactly 0. -/
theorem hausdorff_directed_self_spec_witness :
    (∃ w, hausdorff_directed_polyline_naive sepDist selfA2 selfA2 = .ok w ∧
      w.distance_m = 0) ∧
    (∃ w, hausdorff_directed_polyline_indexed sepDist selfOrder2 selfA2 selfA2 = .ok w ∧
      w.distance_m = 0) :=
  ⟨(hausdorff_directed_self_spec sepDist selfOrder2 selfA2
      (by decide) (by decide) (by decide) (by decide)).1,
   (hausdorff_directed_self_spec sepDist selfOrder2 selfA2
      (by decide) (by decide) (by decide) (by decide)).2
      (by decide) (by decide) (by decide)⟩
